import Mathlib

/-!
Verification of the dns.c restartable DNS resolver library against its
natural-language specification.

The development shallowly embeds the C source (src/src/dns.c) into Lean:
packets are byte lists with an explicit logical length, machine integers
are Nat with explicit reductions mod powers of two, and fallible C code
returns Except.  All definitions are executable.  Loops are expressed with
explicit fuel; wherever the C code is known to terminate, a sufficient fuel
bound is supplied (and proved sufficient where a claim needs it).

Conventions and modelling notes, used throughout:
* offsetof(struct dns_packet, data) is taken as 0, so all size arithmetic
  is on the data area directly.  This preserves all relative behaviour.
* The DNS header layout (12 bytes: id, flags, qdcount, ancount, nscount,
  arcount, big-endian; TC bit 0x02 and RD bit 0x01 of byte 2, RCODE the low
  nibble of byte 3) is modelled from RFC 1035 section 4.1.1 and the spec,
  because the bitfield declarations live in dns.h which is not part of the
  given sources.  Likewise the enum values for sections (QD=1, AN=2, NS=4,
  AR=8, ALL=15), types (A=1, NS=2, CNAME=5, SOA=6, PTR=12, MX=15, TXT=16,
  AAAA=28, SRV=33, ALL=255) and classes (IN=1, ANY=255) follow the spec's
  section 6 and the shifting/masking idioms visible in dns.c.
* Buffers in C are uninitialised beyond the logical end; the model fills
  them with zeroes.  No theorem below depends on bytes the C code never
  wrote and never read.
-/

set_option maxRecDepth 100000

namespace DnsC

/-- Equality of fallible results is decidable whenever both components'
equality is. -/
instance instDecEqExcept {e a : Type} [DecidableEq e] [DecidableEq a] :
    DecidableEq (Except e a) := fun x y =>
  match x, y with
  | .ok u, .ok v =>
    match decEq u v with
    | isTrue h => isTrue (by rw [h])
    | isFalse h => isFalse (by intro hc; cases hc; exact h rfl)
  | .error u, .error v =>
    match decEq u v with
    | isTrue h => isTrue (by rw [h])
    | isFalse h => isFalse (by intro hc; cases hc; exact h rfl)
  | .ok _, .error _ => isFalse (by intro hc; cases hc)
  | .error _, .ok _ => isFalse (by intro hc; cases hc)

/-- Error codes of dns.h (absent from src; names from their uses in dns.c).
nonterm is a model-only marker for places where the C code would loop
forever (it is produced exactly where the C control flow cannot make
progress). -/
inductive DErr where
  | illegal
  | nobufs
  | unknown
  | again
  | einval
  | nonterm
  deriving DecidableEq, Repr

/-- Read a byte of a buffer, 0 beyond its extent (unwritten C memory is
modelled as zero). -/
def bget (l : List Nat) (i : Nat) : Nat := l.getD i 0

/-- Write a byte at an index, zero-extending the buffer if needed (C writes
into a pre-allocated buffer; the model grows the list on demand). -/
def lset (l : List Nat) (i v : Nat) : List Nat :=
  if i < l.length then l.set i v
  else l ++ List.replicate (i - l.length) 0 ++ [v]

/-- Write a run of bytes starting at an index. -/
def writeRun (l : List Nat) (i : Nat) : List Nat → List Nat
  | [] => l
  | v :: vs => writeRun (lset l i v) (i + 1) vs

/-- tolower(3) in the C locale, on a byte. -/
def lowByte (c : Nat) : Nat := if 65 ≤ c ∧ c ≤ 90 then c + 32 else c

/-- The C-string content of a byte list: everything before the first NUL. -/
def cstr (l : List Nat) : List Nat := l.takeWhile (fun c => c ≠ 0)

/-- strcasecmp(3) equality on NUL-terminated byte strings. -/
def caseEq (a b : List Nat) : Bool :=
  ((cstr a).map lowByte) == ((cstr b).map lowByte)

/-- strcasecmp(3) as a signed comparison (difference of the first
differing lowercased bytes, a NUL counting as 0). -/
def caseCmpGo : List Nat → List Nat → Int
  | [], [] => 0
  | [], y :: _ => 0 - (lowByte y : Int)
  | x :: _, [] => (lowByte x : Int)
  | x :: xs, y :: ys =>
      if lowByte x = lowByte y then caseCmpGo xs ys
      else (lowByte x : Int) - (lowByte y : Int)

def caseCmp (a b : List Nat) : Int := caseCmpGo (cstr a) (cstr b)

/-- struct dns_packet: data buffer, capacity (size), logical length (end)
and the compression dictionary (the list of its nonzero entries, capacity
16 as stated by the spec; dns.c scans entries up to the first zero). -/
structure Packet where
  size : Nat
  pend : Nat
  data : List Nat
  dict : List Nat
  deriving DecidableEq, Repr

/-- dns_p_init: fresh packet, end = 12, header zeroed (the model zeroes the
whole buffer; the C code leaves bytes past the header uninitialised). -/
def pInit (size : Nat) : Packet :=
  { size := size, pend := 12, data := List.replicate size 0, dict := [] }

/-- dns_p_calcsize (dns.h, modelled with offsetof = 0): at least the
12-byte header. -/
def pCalcsize (n : Nat) : Nat := max 12 n

/-- dns_p_sizeof (dns.h, modelled with offsetof = 0). -/
def pSizeof (P : Packet) : Nat := pCalcsize P.pend

/-- dns_p_new(n) (dns.h macro): an initialised fresh packet of capacity
dns_p_calcsize(n). -/
def pNew (n : Nat) : Packet := pInit (pCalcsize n)

/-- dns_p_copy: copy logical contents of P0 into P (which keeps its own
capacity and dictionary); end clamped to the destination capacity. -/
def pCopy (P : Packet) (P0 : Packet) : Packet :=
  let e := min P.size P0.pend
  { P with pend := e, data := P0.data.take e ++ List.replicate (P.size - e) 0 }

/-- Big-endian 16-bit read at a byte offset. -/
def get16 (P : Packet) (off : Nat) : Nat := 256 * bget P.data off + bget P.data (off + 1)

/-- Big-endian 16-bit write at a byte offset (value reduced mod 2^16, as
htons does). -/
def set16 (P : Packet) (off v : Nat) : Packet :=
  { P with data := lset (lset P.data off ((v % 65536) / 256)) (off + 1) (v % 256) }

def hdrQid (P : Packet) : Nat := get16 P 0
def hdrQdcount (P : Packet) : Nat := get16 P 4
def hdrAncount (P : Packet) : Nat := get16 P 6
def hdrNscount (P : Packet) : Nat := get16 P 8
def hdrArcount (P : Packet) : Nat := get16 P 10

/-- The TC (truncated) flag: bit 0x02 of header byte 2. -/
def hdrTc (P : Packet) : Bool := bget P.data 2 &&& 2 ≠ 0

/-- Set the RCODE field: the low nibble of header byte 3. -/
def hdrSetRcode (P : Packet) (rc : Nat) : Packet :=
  { P with data := lset P.data 3 ((bget P.data 3 / 16) * 16 + rc % 16) }

/-- dns_p_count. -/
def pCount (P : Packet) (sect : Nat) : Nat :=
  if sect = 1 then hdrQdcount P
  else if sect = 2 then hdrAncount P
  else if sect = 4 then hdrNscount P
  else if sect = 8 then hdrArcount P
  else if sect = 15 then hdrQdcount P + hdrAncount P + hdrNscount P + hdrArcount P
  else 0

/-- Increment one of the header section counters (htons(ntohs(x) + 1)). -/
def bumpCount (P : Packet) (off : Nat) : Packet := set16 P off (get16 P off + 1)

/-!  Domain-name routines. -/

/-- dns_l_expand: expand one label at src, chasing at most 127 compression
pointers (DNS_D_MAXPTRS); hops counts the pointers still allowed.  Returns
(len, label bytes, next offset); the invalid cases return (0, [], end)
exactly as the C code does (which also NUL-terminates its output buffer;
the model returns the label bytes themselves). -/
def lExpandGo (data : List Nat) (pend : Nat) : Nat → Nat → Nat × List Nat × Nat
  | hops, src =>
    if src ≥ pend then (0, [], pend)
    else
      let b := bget data src
      if b / 64 = 0 then
        let len := b % 64
        if pend - (src + 1) < len then (0, [], pend)
        else (len, (data.drop (src + 1)).take len, src + 1 + len)
      else if b / 64 = 3 then
        match hops with
        | 0 => (0, [], pend)
        | h + 1 =>
          if pend - src < 2 then (0, [], pend)
          else lExpandGo data pend h ((b % 64) * 256 + bget data (src + 1))
      else (0, [], pend)

def lExpand (data : List Nat) (pend src : Nat) : Nat × List Nat × Nat :=
  lExpandGo data pend 127 src

/-- dns_l_skip: step over one label; pointers and the terminal zero label
return end (the walk over an in-packet name stops there). -/
def lSkip (src : Nat) (data : List Nat) (pend : Nat) : Nat :=
  if src ≥ pend then pend
  else
    let b := bget data src
    if b / 64 = 0 then
      let len := b % 64
      if pend - (src + 1) < len then pend
      else if len ≠ 0 then src + 1 + len else pend
    else pend

/-- dns_d_skip: skip a (possibly compressed) domain name inside a packet,
returning the offset just past it; any malformation returns P->end.
Fuel bounds the label walk (each literal label strictly advances src). -/
def dSkipGo (data : List Nat) (pend : Nat) : Nat → Nat → Nat
  | 0, _ => pend
  | fuel + 1, src =>
    if src ≥ pend then pend
    else
      let b := bget data src
      if b / 64 = 0 then
        let len := b % 64
        if len = 0 then src + 1
        else if pend - (src + 1) > len then dSkipGo data pend fuel (src + 1 + len)
        else pend
      else if b / 64 = 3 then
        if pend - src < 2 then pend else src + 2
      else pend

def dSkip (src : Nat) (P : Packet) : Nat := dSkipGo P.data P.pend (P.pend + 1) src

/-- Result of dns_d_expand.  out is the model's fuel-exhaustion marker: the
C function has no such outcome, it simply has not returned yet after the
given number of loop iterations. -/
inductive ExpRes where
  | ok (name : List Nat)
  | illegal
  | out
  deriving DecidableEq, Repr

/-- dns_d_expand (one loop iteration per unit of fuel).  Faithful details:
the label branch resets the pointer-hop counter nptrs to zero (dns.c line
1013), the pointer branch fails with DNS_EILLEGAL once more than
DNS_D_MAXPTRS = 127 consecutive hops are taken, reserved label types and
truncated data fail with DNS_EILLEGAL, and a leading terminal label yields
the root name ".".  The model returns the full (untruncated) name; the C
function writes a prefix limited by the caller's buffer but returns the
same untruncated length. -/
def dExpandGo (data : List Nat) (pend : Nat) : Nat → Nat → Nat → List Nat → ExpRes
  | 0, _, _, _ => .out
  | fuel + 1, src, nptrs, acc =>
    if src ≥ pend then .illegal
    else
      let b := bget data src
      if b / 64 = 0 then
        let len := b % 64
        if len = 0 then .ok (if acc.length = 0 then [46] else acc)
        else if pend - (src + 1) < len then .illegal
        else dExpandGo data pend fuel (src + 1 + len) 0
               (acc ++ (data.drop (src + 1)).take len ++ [46])
      else if b / 64 = 3 then
        if nptrs + 1 > 127 then .illegal
        else if pend - src < 2 then .illegal
        else dExpandGo data pend fuel ((b % 64) * 256 + bget data (src + 1)) (nptrs + 1) acc
      else .illegal

/-- Default fuel used when invoking the expander from other embedded
operations; ample for every terminating execution exercised below. -/
def expFuel (pend : Nat) : Nat := 128 * (pend + 1) + 1

def dExpand (src : Nat) (P : Packet) : ExpRes :=
  dExpandGo P.data P.pend (expFuel P.pend) src 0 []

/-- dns_d_anchor: ensure a trailing dot (s nonempty); empty input yields
length 0.  Buffer truncation is not modelled (see file header). -/
def dAnchor (s : List Nat) : List Nat :=
  if s.length = 0 then []
  else if s.getLast? = some 46 then s else s ++ [46]

/-!  dns_d_comp: textual name to wire form, with compression against the
packet's dictionary.  The build phase writes labels; the match phase walks
the new name and every dictionary name looking for a common tail, exactly
mirroring the C control flow, including the fact that the scanning state
(a.len, a.label) persists across dictionary candidates within one outer
position.  Fuel parameters bound walks that advance through a buffer; the
C loops they model advance the same cursors. -/

/-- Build phase of dns_d_comp (the first while loop plus the two trailing
fixups); p, x, cur mirror dst.p, dst.x and src.x - src.p.  Returns the
written buffer and its length dst.p. -/
def compBuildGo : List Nat → Nat → Nat → Nat → List Nat → List Nat × Nat
  | [], p, x, cur, buf =>
    let (buf, p) := if cur > 0 then (lset buf p (cur % 64), x) else (buf, p)
    if p > 1 then (lset buf p 0, p + 1) else (buf, p)
  | c :: rest, p, x, cur, buf =>
    if c = 46 then compBuildGo rest x (x + 1) 0 (lset buf p (cur % 64))
    else compBuildGo rest p (x + 1) (cur + 1) (lset buf x c)

def compBuild (src : List Nat) : List Nat × Nat := compBuildGo src 0 1 0 []

/-- The innermost match walk of dns_d_comp: advance both label streams while
they compare equal case-insensitively.  Returns the final (a.len, a.label,
b.len). -/
def compMatchGo (wire : List Nat) (data : List Nat) (pend : Nat) :
    Nat → Nat × List Nat × Nat → Nat × List Nat × Nat → Nat × List Nat × Nat
  | 0, (alen, alab, _), (blen, _, _) => (alen, alab, blen)
  | fuel + 1, (alen, alab, ay), (blen, blab, by_) =>
    if alen ≠ 0 ∧ blen ≠ 0 ∧ caseEq alab blab then
      let a := lExpand wire wire.length ay
      let b := lExpand data pend by_
      compMatchGo wire data pend fuel (a.1, a.2.1, a.2.2) (b.1, b.2.1, b.2.2)
    else (alen, alab, blen)

/-- The walk over one dictionary name (the while loop over b.p).  Threads
the possibly-clobbered a-state through, as the C variables do.  Returns
(matched pointer target if any, final a.len, final a.label). -/
def compBWalkGo (wire : List Nat) (data : List Nat) (pend : Nat) (ax : Nat) :
    Nat → Nat → Nat → List Nat → Option Nat × Nat × List Nat
  | 0, _, alen, alab => (none, alen, alab)
  | fuel + 1, bp, alen, alab =>
    let (blen, blab, bx) := lExpand data pend bp
    if blen = 0 then (none, alen, alab)
    else
      let (alen', alab', blen') :=
        compMatchGo wire data pend (wire.length + pend + 2) (alen, alab, ax) (blen, blab, bx)
      if alen' = 0 ∧ blen' = 0 ∧ bp ≤ 16383 then (some bp, alen', alab')
      else compBWalkGo wire data pend ax fuel bx alen' alab'

/-- The for loop over dictionary entries, threading the a-state. -/
def compDictGo (wire : List Nat) (data : List Nat) (pend : Nat) (ax : Nat) :
    List Nat → Nat → List Nat → Option Nat × Nat × List Nat
  | [], alen, alab => (none, alen, alab)
  | d :: ds, alen, alab =>
    match compBWalkGo wire data pend ax (pend + 2) d alen alab with
    | (some bp, a1, a2) => (some bp, a1, a2)
    | (none, a1, a2) => compDictGo wire data pend ax ds a1 a2

/-- The outer walk over the freshly written name (the while loop over a.p);
on a full-tail match the tail is replaced by a 2-byte pointer. -/
def compAWalkGo (dict : List Nat) (data : List Nat) (pend : Nat)
    (wire : List Nat) (plen : Nat) : Nat → Nat → List Nat × Nat
  | 0, _ => (wire, plen)
  | fuel + 1, ap =>
    let (alen, alab, ax) := lExpand wire wire.length ap
    if alen = 0 then (wire, plen)
    else
      match compDictGo wire data pend ax dict alen alab with
      | (some bp, _, _) => (wire.take ap ++ [192 + bp / 256, bp % 256], ap + 2)
      | (none, _, _) => compAWalkGo dict data pend wire plen fuel ax

/-- dns_d_comp.  The compression phase only runs when the plainly encoded
name fits the remaining space (dst.p < lim), as in the C code. -/
def dComp (src : List Nat) (lim : Nat) (P : Packet) : List Nat × Nat :=
  let (wire, p) := compBuild src
  if p < lim then compAWalkGo P.dict P.data P.pend wire p (wire.length + 1) 0
  else (wire, p)

/-- dns_p_dictadd's first loop: walk the labels of the just-written name
looking for an interior pointer whose target equals an existing dictionary
entry; if found, that entry's index is returned (it gets replaced). -/
def dictScanGo (P : Packet) (dn : Nat) : Nat → Nat → Option Nat
  | 0, _ => none
  | fuel + 1, lp =>
    if lp ≥ P.pend then none
    else
      let b := bget P.data lp
      if b / 64 = 3 ∧ P.pend - lp ≥ 2 ∧ lp ≠ dn then
        let lptr := (b % 64) * 256 + bget P.data (lp + 1)
        match P.dict.findIdx? (fun e => e = lptr) with
        | some i => some i
        | none => dictScanGo P dn fuel (lSkip lp P.data P.pend)
      else dictScanGo P dn fuel (lSkip lp P.data P.pend)

/-- dns_p_dictadd: LRU-replace a dictionary entry now referenced from the
new name, else append to the first free slot (capacity 16). -/
def pDictadd (P : Packet) (dn : Nat) : Packet :=
  match dictScanGo P dn (P.pend + 1) dn with
  | some i => { P with dict := P.dict.set i dn }
  | none => if P.dict.length < 16 then { P with dict := P.dict ++ [dn] } else P

/-- dns_d_push: compress the textual name into the packet at P->end.  When
dns_d_comp yields length 0 the C code returns an indeterminate error (its
error variable is never assigned); the model returns DNS_EILLEGAL there,
and no theorem below exercises that path. -/
def dPush (P : Packet) (dn : List Nat) : Except DErr Packet :=
  let lim := P.size - P.pend
  let clen := dComp dn lim P
  if clen.2 = 0 then .error .illegal
  else if clen.2 > lim then .error .nobufs
  else
    let dp := P.pend
    let P1 := { P with data := writeRun P.data dp (clen.1.take clen.2), pend := P.pend + clen.2 }
    .ok (pDictadd P1 dp)

/-!  Resource records. -/

/-- struct dns_rr: a parsed view into a packet. -/
structure RR where
  dnP : Nat
  dnLen : Nat
  ty : Nat
  cls : Nat
  ttl : Nat
  rdP : Nat
  rdLen : Nat
  sect : Nat
  deriving DecidableEq, Repr

/-- dns_rr_parse, including the special case that a record starting at
offset 12 is read as a question (no TTL or RDATA).  The section field is 1
(QD) in that case and 0 otherwise (the C code leaves it to the caller). -/
def rrParse (src : Nat) (P : Packet) : Except DErr RR :=
  if src ≥ P.pend then .error .illegal
  else
    let p1 := dSkip src P
    let dnLen := p1 - src
    if P.pend - p1 < 4 then .error .illegal
    else
      let ty := 256 * bget P.data p1 + bget P.data (p1 + 1)
      let cls := 256 * bget P.data (p1 + 2) + bget P.data (p1 + 3)
      let p2 := p1 + 4
      if src = 12 then .ok ⟨src, dnLen, ty, cls, 0, 0, 0, 1⟩
      else if P.pend - p2 < 4 then .error .illegal
      else
        let ttl := (bget P.data p2 % 128) * 16777216 + bget P.data (p2 + 1) * 65536
                     + bget P.data (p2 + 2) * 256 + bget P.data (p2 + 3)
        let p3 := p2 + 4
        if P.pend - p3 < 2 then .error .illegal
        else
          let rdLen := 256 * bget P.data p3 + bget P.data (p3 + 1)
          if P.pend - (p3 + 2) < rdLen then .error .illegal
          else .ok ⟨src, dnLen, ty, cls, ttl, p3 + 2, rdLen, 0⟩

/-- dns_rr_len. -/
def rrLen (rr : RR) : Nat :=
  rr.dnLen + 4 + (if rr.dnP = 12 then 0 else 4 + 2 + rr.rdLen)

/-- dns_rr_skip. -/
def rrSkip (src : Nat) (P : Packet) : Nat :=
  match rrParse src P with
  | .error _ => P.pend
  | .ok rr => src + rrLen rr

/-- Index-counting loop of dns_rr_section. -/
def rrIndexGo (P : Packet) (src : Nat) : Nat → Nat → Nat → Nat
  | 0, _, idx => idx
  | fuel + 1, rp, idx =>
    if rp < src ∧ rp < P.pend then rrIndexGo P src fuel (rrSkip rp P) (idx + 1) else idx

/-- Section-derivation loop of dns_rr_section. -/
def rrSectGo (P : Packet) (idx : Nat) : Nat → Nat → Nat → Nat
  | 0, s, _ => 15 &&& s
  | fuel + 1, s, count =>
    if idx ≥ count ∧ s ≤ 8 then rrSectGo P idx fuel (2 * s) (count + pCount P (2 * s))
    else 15 &&& s

/-- dns_rr_section: which section the record at src belongs to, judged by
its index against the header counts. -/
def rrSection (src : Nat) (P : Packet) : Nat :=
  rrSectGo P (rrIndexGo P src (P.pend + 1) 12 0) 5 1 (pCount P 1)

/-!  Typed RDATA (union dns_any). -/

/-- union dns_any.  The buffer capacity of the opaque/TXT form
(any->rdata.size after dns_any_init(&any, sizeof any)) is modelled as 256
bytes; the exact struct dns_txt layout lives in the absent dns.h. -/
inductive DnsAny where
  | a (addr : Nat)
  | aaaa (bytes : List Nat)
  | ns (host : List Nat)
  | cname (host : List Nat)
  | ptr (host : List Nat)
  | mx (pref : Nat) (host : List Nat)
  | soa (mname rname : List Nat) (serial refresh retry expire minimum : Nat)
  | srv (pri weight port : Nat) (target : List Nat)
  | txt (tdata : List Nat)
  | other (rdata : List Nat)
  deriving DecidableEq, Repr

def anyCap : Nat := 256

/-- Append one byte at P->end. -/
def pushByte (P : Packet) (v : Nat) : Packet :=
  { P with data := lset P.data P.pend (v % 256), pend := P.pend + 1 }

def pushBytes (P : Packet) : List Nat → Packet
  | [] => P
  | v :: vs => pushBytes (pushByte P v) vs

/-- Patch a big-endian 16-bit value at an absolute offset (RDLENGTH
backpatching). -/
def patch16 (P : Packet) (off v : Nat) : Packet :=
  { P with data := lset (lset P.data off ((v / 256) % 256)) (off + 1) (v % 256) }

/-- dns_a_parse. -/
def aParse (rr : RR) (P : Packet) : Except DErr DnsAny :=
  if rr.rdLen ≠ 4 then .error .illegal
  else .ok (.a (bget P.data rr.rdP * 16777216 + bget P.data (rr.rdP + 1) * 65536
                + bget P.data (rr.rdP + 2) * 256 + bget P.data (rr.rdP + 3)))

/-- dns_a_push. -/
def aPush (P : Packet) (addr : Nat) : Except DErr Packet :=
  if P.size - P.pend < 6 then .error .nobufs
  else .ok (pushBytes P [0, 4, addr / 16777216, addr / 65536, addr / 256, addr])

/-- dns_aaaa_parse. -/
def aaaaParse (rr : RR) (P : Packet) : Except DErr DnsAny :=
  if rr.rdLen ≠ 16 then .error .illegal
  else .ok (.aaaa ((P.data.drop rr.rdP).take 16))

/-- dns_aaaa_push. -/
def aaaaPush (P : Packet) (bytes : List Nat) : Except DErr Packet :=
  if P.size - P.pend < 18 then .error .nobufs
  else .ok (pushBytes P ([0, 16] ++ (bytes ++ List.replicate 16 0).take 16))

/-- dns_ns_parse (also CNAME and PTR): expand the RDATA as a name. -/
def nsParse (rr : RR) (P : Packet) : Except DErr (List Nat) :=
  match dExpand rr.rdP P with
  | .ok host => if host.length ≥ 256 then .error .illegal else .ok host
  | _ => .error .illegal

/-- dns_ns_push (also CNAME and PTR): reserve 2 bytes, compress the host
name, backpatch RDLENGTH. -/
def nsPush (P : Packet) (host : List Nat) : Except DErr Packet :=
  if P.size - P.pend < 3 then .error .nobufs
  else
    let e := P.pend
    match dPush { P with pend := P.pend + 2 } host with
    | .error err => .error err
    | .ok P1 => .ok (patch16 P1 e (P1.pend - e - 2))

/-- dns_mx_parse. -/
def mxParse (rr : RR) (P : Packet) : Except DErr DnsAny :=
  if rr.rdLen < 3 then .error .illegal
  else
    let pref := 256 * bget P.data rr.rdP + bget P.data (rr.rdP + 1)
    match dExpandGo P.data P.pend (expFuel P.pend) (rr.rdP + 2) 0 [] with
    | .ok host => if host.length ≥ 256 then .error .illegal else .ok (.mx pref host)
    | _ => .error .illegal

/-- dns_mx_push. -/
def mxPush (P : Packet) (pref : Nat) (host : List Nat) : Except DErr Packet :=
  if P.size - P.pend < 5 then .error .nobufs
  else
    let e := P.pend
    match dPush (pushBytes { P with pend := P.pend + 2 } [pref / 256, pref]) host with
    | .error err => .error err
    | .ok P1 => .ok (patch16 P1 e (P1.pend - e - 2))

/-- dns_soa_parse. -/
def soaParse (rr : RR) (P : Packet) : Except DErr DnsAny :=
  if rr.rdP ≥ P.pend then .error .illegal
  else
    match dExpand rr.rdP P with
    | .ok mname =>
      if mname.length ≥ 256 then .error .illegal
      else
        let rp1 := dSkip rr.rdP P
        if rp1 ≥ P.pend then .error .illegal
        else
          match dExpand rp1 P with
          | .ok rname =>
            if rname.length ≥ 256 then .error .illegal
            else
              let rp2 := dSkip rp1 P
              if rp2 ≥ P.pend then .error .illegal
              else if rp2 + 20 > P.pend then .error .illegal
              else
                let rd32 := fun (o : Nat) =>
                  bget P.data o * 16777216 + bget P.data (o + 1) * 65536
                    + bget P.data (o + 2) * 256 + bget P.data (o + 3)
                .ok (.soa mname rname (rd32 rp2) (rd32 (rp2 + 4)) (rd32 (rp2 + 8))
                      (rd32 (rp2 + 12)) (rd32 (rp2 + 16)))
          | _ => .error .illegal
    | _ => .error .illegal

/-- dns_soa_push.  The serial and minimum fields are written mod 2^32, the
refresh, retry and expire fields mod 2^31, as the masks in dns.c do. -/
def soaPushInts (P : Packet) : List Nat → Except DErr Packet
  | [] => .ok P
  | v :: vs =>
    if P.pend + 4 ≥ P.size then .error .nobufs
    else soaPushInts (pushBytes P [v / 16777216, v / 65536, v / 256, v]) vs

def soaPush (P : Packet) (mname rname : List Nat)
    (serial refresh retry expire minimum : Nat) : Except DErr Packet :=
  let e := P.pend
  if P.pend + 2 ≥ P.size then .error .nobufs
  else
    match dPush { P with pend := P.pend + 2 } mname with
    | .error err => .error err
    | .ok P1 =>
      match dPush P1 rname with
      | .error err => .error err
      | .ok P2 =>
        match soaPushInts P2 [serial % 4294967296, refresh % 2147483648,
                              retry % 2147483648, expire % 2147483648,
                              minimum % 4294967296] with
        | .error err => .error err
        | .ok P3 => .ok (patch16 P3 e (P3.pend - e - 2))

/-- dns_srv_parse, including its verbatim bound check against
P->size - P->end (not the record's own extent), as in dns.c line 2033. -/
def srvParse (rr : RR) (P : Packet) : Except DErr DnsAny :=
  if P.size - P.pend < 6 then .error .illegal
  else
    let rd16 := fun (o : Nat) => 256 * bget P.data o + bget P.data (o + 1)
    match dExpandGo P.data P.pend (expFuel P.pend) (rr.rdP + 6) 0 [] with
    | .ok target =>
      if target.length ≥ 256 then .error .illegal
      else .ok (.srv (rd16 rr.rdP) (rd16 (rr.rdP + 2)) (rd16 (rr.rdP + 4)) target)
    | _ => .error .illegal

/-- dns_srv_push: compresses the target name directly with dns_d_comp
(without adding it to the dictionary), RFC 2782 notwithstanding. -/
def srvPush (P : Packet) (pri weight port : Nat) (target : List Nat) : Except DErr Packet :=
  let e := P.pend
  if P.size - P.pend < 2 then .error .nobufs
  else
    let P1 := { P with pend := P.pend + 2 }
    if P1.size - P1.pend < 6 then .error .nobufs
    else
      let P2 := pushBytes P1 [pri / 256, pri, weight / 256, weight, port / 256, port]
      let clen := dComp target (P2.size - P2.pend) P2
      if clen.2 = 0 then .error .illegal
      else if P2.size - P2.pend < clen.2 ∨ clen.2 > 65535 then .error .nobufs
      else
        let P3 := { P2 with data := writeRun P2.data P2.pend (clen.1.take clen.2),
                            pend := P2.pend + clen.2 }
        .ok (patch16 P3 e (P3.pend - e - 2))

/-- dns_txt_parse: concatenate the length-prefixed chunks. -/
def txtParseGo (P : Packet) (send : Nat) : Nat → Nat → List Nat → Except DErr (List Nat)
  | 0, _, _ => .error .nonterm
  | fuel + 1, sp, acc =>
    if sp ≥ send then .ok acc
    else
      let n := bget P.data sp
      if send - (sp + 1) < n ∨ anyCap - acc.length < n then .error .illegal
      else txtParseGo P send fuel (sp + 1 + n) (acc ++ (P.data.drop (sp + 1)).take n)

def txtParse (rr : RR) (P : Packet) : Except DErr DnsAny :=
  match txtParseGo P (rr.rdP + rr.rdLen) (rr.rdLen + 1) rr.rdP [] with
  | .ok d => .ok (.txt d)
  | .error e => .error e

/-- Chunk-writing loop of dns_txt_push.  When the remaining length is a
positive multiple of 256 the C loop writes zero-length chunks until the
buffer is exhausted and then fails with DNS_ENOBUFS; the fuel below covers
that many iterations, so the model agrees. -/
def txtPushGo (tdata : List Nat) (size : Nat) :
    Nat → Nat → Nat → List Nat → Except DErr (List Nat × Nat)
  | 0, _, _, _ => .error .nonterm
  | fuel + 1, sp, dp, buf =>
    if sp ≥ tdata.length then .ok (buf, dp)
    else
      let n := (tdata.length - sp) % 256
      if dp ≥ size then .error .nobufs
      else
        let buf := lset buf dp n
        if size - (dp + 1) < n then .error .nobufs
        else txtPushGo tdata size fuel (sp + n) (dp + 1 + n)
               (writeRun buf (dp + 1) ((tdata.drop sp).take n))

/-- dns_txt_push: the RDLENGTH prefix is precomputed as
len + 1 + len/256 before any chunk is written (no backpatching). -/
def txtPush (P : Packet) (tdata : List Nat) : Except DErr Packet :=
  if P.size - P.pend < 2 then .error .nobufs
  else
    let n := tdata.length + 1 + tdata.length / 256
    let buf := lset (lset P.data P.pend ((n / 256) % 256)) (P.pend + 1) (n % 256)
    match txtPushGo tdata P.size (tdata.length + P.size + 2) 0 (P.pend + 2) buf with
    | .ok r => .ok { P with data := r.1, pend := r.2 }
    | .error e => .error e

/-- dns_any_parse: dispatch on the record type; unknown types copy the raw
RDATA (bounded by the union's buffer capacity). -/
def anyParse (rr : RR) (P : Packet) : Except DErr DnsAny :=
  if rr.ty = 1 then aParse rr P
  else if rr.ty = 28 then aaaaParse rr P
  else if rr.ty = 15 then mxParse rr P
  else if rr.ty = 2 then (nsParse rr P).map .ns
  else if rr.ty = 5 then (nsParse rr P).map .cname
  else if rr.ty = 6 then soaParse rr P
  else if rr.ty = 33 then srvParse rr P
  else if rr.ty = 12 then (nsParse rr P).map .ptr
  else if rr.ty = 16 then txtParse rr P
  else if rr.rdLen > anyCap then .error .illegal
  else .ok (.other ((P.data.drop rr.rdP).take rr.rdLen))

/-- Raw bytes used by the opaque fallback of dns_any_push. -/
def anyRaw : DnsAny → List Nat
  | .other d => d
  | .txt d => d
  | _ => []

/-- dns_any_push: dispatch to the typed writers; unknown types write a
2-byte length plus raw bytes. -/
def anyPush (P : Packet) (any : DnsAny) (ty : Nat) : Except DErr Packet :=
  if ty = 1 then match any with | .a addr => aPush P addr | _ => .error .einval
  else if ty = 28 then match any with | .aaaa b => aaaaPush P b | _ => .error .einval
  else if ty = 15 then match any with | .mx pref host => mxPush P pref host | _ => .error .einval
  else if ty = 2 then match any with | .ns h => nsPush P h | _ => .error .einval
  else if ty = 5 then match any with | .cname h => nsPush P h | _ => .error .einval
  else if ty = 6 then
    match any with
    | .soa mn rn se re rt ex mi => soaPush P mn rn se re rt ex mi
    | _ => .error .einval
  else if ty = 33 then
    match any with | .srv a b c t => srvPush P a b c t | _ => .error .einval
  else if ty = 12 then match any with | .ptr h => nsPush P h | _ => .error .einval
  else if ty = 16 then match any with | .txt d => txtPush P d | _ => .error .einval
  else
    let d := anyRaw any
    if P.size - P.pend < d.length + 2 then .error .nobufs
    else .ok (pushBytes P ([(d.length / 256) % 256, d.length % 256] ++ d))

/-- Byte-wise comparison loop of dns_aaaa_cmp. -/
def aaaaCmpGo : List Nat → List Nat → Int
  | [], [] => 0
  | [], _ => 0
  | _, [] => 0
  | c :: cs, d :: ds => if c = d then aaaaCmpGo cs ds else (c : Int) - (d : Int)

/-- dns_any_cmp (signed); dns_txt_cmp always returns -1 and types outside
the dispatch table also compare as -1, exactly as in dns.c. -/
def anyCmp (a : DnsAny) (x : Nat) (b : DnsAny) (y : Nat) : Int :=
  if x ≠ y then (x : Int) - (y : Int)
  else if x = 1 then
    match a, b with
    | .a u, .a v => if u < v then -1 else if v < u then 1 else 0
    | _, _ => -1
  else if x = 28 then
    match a, b with
    | .aaaa u, .aaaa v =>
      aaaaCmpGo ((u ++ List.replicate 16 0).take 16) ((v ++ List.replicate 16 0).take 16)
    | _, _ => -1
  else if x = 15 then
    match a, b with
    | .mx p h, .mx q k => if p ≠ q then (p : Int) - q else caseCmp h k
    | _, _ => -1
  else if x = 2 then
    match a, b with | .ns h, .ns k => caseCmp h k | _, _ => -1
  else if x = 5 then
    match a, b with | .cname h, .cname k => caseCmp h k | _, _ => -1
  else if x = 6 then
    match a, b with
    | .soa mn rn se re rt ex mi, .soa mn2 rn2 se2 re2 rt2 ex2 mi2 =>
      if caseCmp mn mn2 ≠ 0 then caseCmp mn mn2
      else if caseCmp rn rn2 ≠ 0 then caseCmp rn rn2
      else if se > se2 then -1 else if se < se2 then 1
      else if re > re2 then -1 else if re < re2 then 1
      else if rt > rt2 then -1 else if rt < rt2 then 1
      else if ex > ex2 then -1 else if ex < ex2 then 1
      else if mi > mi2 then -1 else if mi < mi2 then 1
      else 0
    | _, _ => -1
  else if x = 33 then
    match a, b with
    | .srv p w po t, .srv p2 w2 po2 t2 =>
      if p ≠ p2 then (p : Int) - p2
      else if w ≠ w2 then (w : Int) - w2
      else if po ≠ po2 then (po : Int) - po2
      else caseCmp t t2
    | _, _ => -1
  else if x = 12 then
    match a, b with | .ptr h, .ptr k => caseCmp h k | _, _ => -1
  else -1

/-- dns_rr_cmp: type, class, owner name (case-insensitive), then RDATA. -/
def rrCmp (r0 : RR) (P0 : Packet) (r1 : RR) (P1 : Packet) : Int :=
  if r0.ty ≠ r1.ty then (r0.ty : Int) - r1.ty
  else if r0.cls ≠ r1.cls then (r0.cls : Int) - r1.cls
  else
    match dExpand r0.dnP P0 with
    | .ok h0 =>
      match dExpand r1.dnP P1 with
      | .ok h1 =>
        if caseCmp h0 h1 ≠ 0 then caseCmp h0 h1
        else
          match anyParse r0 P0 with
          | .ok a0 =>
            match anyParse r1 P1 with
            | .ok a1 => anyCmp a0 r0.ty a1 r1.ty
            | .error _ => 1
          | .error _ => -1
      | _ => 1
    | _ => -1

/-- dns_p_push: compressed name, 16-bit type and class, then (beyond the
question section) the 31-bit-masked TTL and the typed RDATA writer, and a
header-count increment.  On any failure the C code rolls P->end back; the
model returns the error (callers below never reuse the partially written
packet). -/
def pPush (P0 : Packet) (sect : Nat) (dn : List Nat) (ty cls ttl : Nat)
    (any : Option DnsAny) : Except DErr Packet :=
  match dPush P0 dn with
  | .error e => .error e
  | .ok P1 =>
    if P1.size - P1.pend < 4 then .error .nobufs
    else
      let P2 := pushBytes P1 [ty / 256, ty, cls / 256, cls]
      if sect = 1 then .ok (bumpCount P2 4)
      else if P2.size - P2.pend < 6 then .error .nobufs
      else
        let P3 := pushBytes P2 [(ttl / 16777216) % 128, ttl / 65536, ttl / 256, ttl]
        match anyPush P3 (any.getD (.other [])) ty with
        | .error e => .error e
        | .ok P4 =>
          .ok (if sect = 2 then bumpCount P4 6
               else if sect = 4 then bumpCount P4 8
               else if sect = 8 then bumpCount P4 10
               else P4)

/-!  Record iteration (struct dns_rr_i).  The embedded operations below all
iterate in packet order, dns_rr_i_packet (the default sort when none is
set); the order and shuffle comparators of dns.c are not exercised by any
claim settled here. -/

/-- The filter fields of struct dns_rr_i (state kept by the collectors). -/
structure RRIter where
  sect : Nat := 0
  ty : Nat := 0
  cls : Nat := 0
  name : Option (List Nat) := none
  rdata : Option DnsAny := none
  deriving DecidableEq, Repr

/-- dns_rr_i_packet: stable order by record offset. -/
def sortPacket (a b : RR) : Int := (a.dnP : Int) - b.dnP

/-- dns_rr_i_match.  When the name filter's expansion fails the C code
compares against whatever prefix landed in its buffer; the model treats
that case as no match (no theorem below exercises it). -/
def iMatch (rr : RR) (i : RRIter) (P : Packet) : Bool :=
  (i.sect == 0 || rr.sect &&& i.sect != 0)
  && (i.ty == 0 || rr.ty == i.ty || i.ty == 255)
  && (i.cls == 0 || rr.cls == i.cls || i.cls == 255)
  && (match i.name with
      | none => true
      | some nm =>
        match dExpand rr.dnP P with
        | .ok d => decide (d.length < 256) && caseEq d nm
        | _ => false)
  && (match i.rdata with
      | none => true
      | some rd =>
        if i.ty ≠ 0 ∧ rr.sect > 1 then
          match anyParse rr P with
          | .ok a => anyCmp a rr.ty rd i.ty == 0
          | .error _ => false
        else true)

/-- Linear scan for the first matching record at or after rp (parse
failures are skipped, which in dns.c ends the walk since dns_rr_skip then
returns P->end). -/
def iScanFirst (i : RRIter) (P : Packet) : Nat → Nat → Option (Nat × RR)
  | 0, _ => none
  | fuel + 1, rp =>
    if rp ≥ P.pend then none
    else
      match rrParse rp P with
      | .error _ => iScanFirst i P fuel (rrSkip rp P)
      | .ok rr0 =>
        let rr := { rr0 with sect := rrSection rp P }
        if iMatch rr i P then some (rp, rr) else iScanFirst i P fuel (rrSkip rp P)

/-- Second loop of dns_rr_i_start: keep the minimum under the sort. -/
def iStartMin (i : RRIter) (P : Packet) : Nat → Nat → RR → Nat
  | 0, _, r0 => r0.dnP
  | fuel + 1, rp, r0 =>
    if rp ≥ P.pend then r0.dnP
    else
      match rrParse rp P with
      | .error _ => iStartMin i P fuel (rrSkip rp P) r0
      | .ok rr0 =>
        let rr := { rr0 with sect := rrSection rp P }
        if iMatch rr i P ∧ sortPacket rr r0 < 0 then iStartMin i P fuel (rrSkip rp P) rr
        else iStartMin i P fuel (rrSkip rp P) r0

/-- dns_rr_i_start: offset of the minimal matching record, or P->end. -/
def iStart (i : RRIter) (P : Packet) : Nat :=
  match iScanFirst i P (P.pend + 1) 12 with
  | none => P.pend
  | some (rp0, r0) => iStartMin i P (P.pend + 1) (rrSkip rp0 P) r0

/-- First loop of dns_rr_i_skip: the first match strictly above prev. -/
def iScanGT (i : RRIter) (P : Packet) (r0 : RR) : Nat → Nat → Option (Nat × RR)
  | 0, _ => none
  | fuel + 1, rp =>
    if rp ≥ P.pend then none
    else
      match rrParse rp P with
      | .error _ => iScanGT i P r0 fuel (rrSkip rp P)
      | .ok rr0 =>
        let rr := { rr0 with sect := rrSection rp P }
        if iMatch rr i P ∧ sortPacket rr r0 > 0 then some (rp, rr)
        else iScanGT i P r0 fuel (rrSkip rp P)

/-- Second loop of dns_rr_i_skip: minimum among matches strictly above
prev. -/
def iSkipMin (i : RRIter) (P : Packet) (r0 : RR) : Nat → Nat → RR → Nat
  | 0, _, rZ => rZ.dnP
  | fuel + 1, rp, rZ =>
    if rp ≥ P.pend then rZ.dnP
    else
      match rrParse rp P with
      | .error _ => iSkipMin i P r0 fuel (rrSkip rp P) rZ
      | .ok rr0 =>
        let rr := { rr0 with sect := rrSection rp P }
        if iMatch rr i P ∧ sortPacket rr r0 > 0 ∧ sortPacket rr rZ < 0 then
          iSkipMin i P r0 fuel (rrSkip rp P) rr
        else iSkipMin i P r0 fuel (rrSkip rp P) rZ

/-- dns_rr_i_skip. -/
def iSkipOff (rp : Nat) (i : RRIter) (P : Packet) : Nat :=
  match rrParse rp P with
  | .error _ => P.pend
  | .ok r0p =>
    let r0 := { r0p with sect := rrSection rp P }
    match iScanGT i P r0 (P.pend + 1) 12 with
    | none => P.pend
    | some (rpZ, rZ) => iSkipMin i P r0 (P.pend + 1) (rrSkip rpZ P) rZ

/-- Repeated dns_rr_grep with limit 1: the full match list in iteration
order (a parse failure mid-iteration aborts it, as the grep error path
does). -/
def collectGo (i : RRIter) (P : Packet) : Nat → Nat → List RR
  | 0, _ => []
  | fuel + 1, rp =>
    if rp ≥ P.pend then []
    else
      match rrParse rp P with
      | .error _ => []
      | .ok rr0 =>
        let rr := { rr0 with sect := rrSection rp P }
        rr :: collectGo i P fuel (iSkipOff rp i P)

def collect (i : RRIter) (P : Packet) : List RR := collectGo i P (P.pend + 1) (iStart i P)

/-- dns_rr_exists. -/
def rrExists (rr0 : RR) (P0 P1 : Packet) : Bool :=
  (collect { sect := rr0.sect, ty := rr0.ty } P1).any
    (fun rr1 => rrCmp rr0 P0 rr1 P1 == 0)

/-- dns_rr_copy: re-expand the owner name and re-push the parsed record
into the destination packet. -/
def rrCopy (P : Packet) (rr : RR) (Q : Packet) : Except DErr Packet :=
  match dExpand rr.dnP Q with
  | .ok dn =>
    if dn.length ≥ 256 then .error .nobufs
    else if rr.sect ≠ 1 then
      match anyParse rr Q with
      | .error e => .error e
      | .ok any => pPush P rr.sect dn rr.ty rr.cls rr.ttl (some any)
    else pPush P rr.sect dn rr.ty rr.cls rr.ttl none
  | _ => .error .illegal

/-!  dns_r_merge. -/

/-- Merge-internal error: a retryable DNS_ENOBUFS from the section-copy
loops versus everything else (including failures while copying the
question, which dns.c does not retry). -/
inductive MErr where
  | fatal (e : DErr)
  | retry
  deriving DecidableEq, Repr

/-- Copy the question records of P0 (iteration in packet order). -/
def mergeQD (P2 : Packet) (P0 : Packet) : List RR → Except MErr Packet
  | [] => .ok P2
  | rr :: rest =>
    match rrCopy P2 rr P0 with
    | .ok P2' => mergeQD P2' P0 rest
    | .error e => .error (.fatal e)

/-- One section-copy loop: copy each record unless an equal record (under
dns_rr_cmp) already sits anywhere outside the question section of the
destination. -/
def mergeCopyList (P2 : Packet) (src : Packet) : List RR → Except MErr Packet
  | [] => .ok P2
  | rr :: rest =>
    if (collect { sect := 14, ty := rr.ty } P2).any
        (fun rr2 => rrCmp rr src rr2 P2 == 0) then
      mergeCopyList P2 src rest
    else
      match rrCopy P2 rr src with
      | .ok P2' => mergeCopyList P2' src rest
      | .error .nobufs => .error .retry
      | .error e => .error (.fatal e)

/-- One attempt of dns_r_merge at a given buffer size. -/
def mergeAttempt (P0 P1 : Packet) (bufsiz : Nat) : Except MErr Packet :=
  let P2 := pInit (pCalcsize bufsiz)
  match mergeQD P2 P0 (collect { sect := 1 } P0) with
  | .error e => .error e
  | .ok P2 =>
    match mergeCopyList P2 P0 (collect { sect := 2 } P0) with
    | .error e => .error e
    | .ok P2 =>
      match mergeCopyList P2 P1 (collect { sect := 2 } P1) with
      | .error e => .error e
      | .ok P2 =>
        match mergeCopyList P2 P0 (collect { sect := 4 } P0) with
        | .error e => .error e
        | .ok P2 =>
          match mergeCopyList P2 P1 (collect { sect := 4 } P1) with
          | .error e => .error e
          | .ok P2 =>
            match mergeCopyList P2 P0 (collect { sect := 8 } P0) with
            | .error e => .error e
            | .ok P2 =>
              match mergeCopyList P2 P1 (collect { sect := 8 } P1) with
              | .error e => .error e
              | .ok P2 => .ok P2

/-- dns_r_merge: initial buffer of P0->end + P1->end bytes; one retry at
max(65535, bufsiz * 2) when a section copy hits DNS_ENOBUFS while
bufsiz < 65535. -/
def rMerge (P0 P1 : Packet) : Except DErr Packet :=
  let bufsiz := P0.pend + P1.pend
  match mergeAttempt P0 P1 bufsiz with
  | .ok P => .ok P
  | .error (.fatal e) => .error e
  | .error .retry =>
    if bufsiz < 65535 then
      match mergeAttempt P0 P1 (max 65535 (bufsiz * 2)) with
      | .ok P => .ok P
      | .error (.fatal e) => .error e
      | .error .retry => .error .nobufs
    else .error .nobufs

/-!  TEA and the Feistel permutor (dns_k_tea, dns_k_permutor). -/

def M32 : Nat := 4294967296

/-- DNS_K_TEA_MAGIC = 0x9E3779B9. -/
def teaMagic : Nat := 2654435769

/-- One TEA cycle on the state (y, z, sum), all arithmetic mod 2^32.  The
z update uses the already-updated y, as in dns_k_tea_encrypt. -/
def teaCycle (k0 k1 k2 k3 : Nat) (st : Nat × Nat × Nat) : Nat × Nat × Nat :=
  let sum := (st.2.2 + teaMagic) % M32
  let z0 := st.2.1
  let y := (st.1 + (((z0 <<< 4) % M32 + k0) % M32 ^^^ (z0 + sum) % M32
                     ^^^ ((z0 >>> 5) + k1) % M32)) % M32
  let z := (z0 + (((y <<< 4) % M32 + k2) % M32 ^^^ (y + sum) % M32
                   ^^^ ((y >>> 5) + k3) % M32)) % M32
  (y, z, sum)

def teaCycles (k0 k1 k2 k3 : Nat) : Nat → Nat × Nat × Nat → Nat × Nat × Nat
  | 0, st => st
  | n + 1, st => teaCycles k0 k1 k2 k3 n (teaCycle k0 k1 k2 k3 st)

/-- dns_k_tea_encrypt with DNS_K_TEA_CYCLES = 32 cycles and a 128-bit key
(four 32-bit words). -/
def teaEncrypt (key : List Nat) (v0 v1 : Nat) : Nat × Nat :=
  let r := teaCycles (key.getD 0 0 % M32) (key.getD 1 0 % M32)
             (key.getD 2 0 % M32) (key.getD 3 0 % M32) 32 (v0 % M32, v1 % M32, 0)
  (r.1, r.2.1)

/-- struct dns_k_permutor. -/
structure Permutor where
  stepi : Nat
  length : Nat
  limit : Nat
  shift : Nat
  mask : Nat
  rounds : Nat
  key : List Nat
  deriving DecidableEq, Repr

/-- dns_k_permutor_F: TEA over the block (round index, half-block),
truncated to the mask. -/
def permF (p : Permutor) (k x : Nat) : Nat :=
  p.mask &&& (teaEncrypt p.key k x).1

/-- The do-while body of dns_k_permutor_E: execute one Feistel round, then
continue while i + 1 < rounds - 1.  (For the C code's unsigned arithmetic
with rounds = 0 the loop would run ~2^32 times; the permutor always has
rounds = 8.) -/
def permEGo (p : Permutor) : Nat → Nat → Nat × Nat → Nat × Nat
  | 0, _, lr => lr
  | fuel + 1, i, lr =>
    let lr' := (lr.2, lr.1 ^^^ permF p i lr.2)
    if i + 1 < p.rounds - 1 then permEGo p fuel (i + 1) lr' else lr'

/-- dns_k_permutor_E. -/
def permE (p : Permutor) (n : Nat) : Nat :=
  let lr := permEGo p p.rounds 0 (p.mask &&& (n >>> p.shift), p.mask &&& n)
  ((lr.1 &&& p.mask) <<< p.shift) ||| (lr.2 &&& p.mask)

/-- The do-while body of dns_k_permutor_D (indices descending). -/
def permDGo (p : Permutor) : Nat → Nat → Nat × Nat → Nat × Nat
  | 0, _, lr => lr
  | fuel + 1, i, lr =>
    let i' := i - 1
    let lr' := (lr.2 ^^^ permF p i' lr.1, lr.1)
    if i' > 0 then permDGo p fuel i' lr' else lr'

/-- dns_k_permutor_D. -/
def permD (p : Permutor) (n : Nat) : Nat :=
  let lr := permDGo p p.rounds (p.rounds - 1) (p.mask &&& (n >>> p.shift), p.mask &&& n)
  ((lr.1 &&& p.mask) <<< p.shift) ||| (lr.2 &&& p.mask)

/-- dns_k_permutor_powof: the m-doubling loop, with fuel n (ample, since
the iteration count is at most log2 n + 1). -/
def powofGo (n : Nat) : Nat → Nat → Nat → Nat
  | 0, _, i => i
  | fuel + 1, m, i => if m < n then powofGo n fuel (2 * m) (i + 1) else i

def powof (n : Nat) : Nat := powofGo n n 1 0

/-- dns_k_permutor_init (the key is a parameter rather than drawn from
dns_random; every theorem below quantifies over it). -/
def permInit (key : List Nat) (low high : Nat) : Permutor :=
  let len := high - low + 1
  let width0 := powof len
  let width := width0 + width0 % 2
  { stepi := 0, length := len, limit := high, shift := width / 2,
    mask := (1 <<< (width / 2)) - 1, rounds := 8, key := key }

/-- dns_k_permutor_step, iterated: produce count outputs, spending one unit
of fuel per evaluation of E (the cycle-walking rejection loop). -/
def stepRun (fuel : Nat) (p : Permutor) (count : Nat) : Option (List Nat) :=
  match count with
  | 0 => some []
  | c + 1 =>
    match fuel with
    | 0 => none
    | f + 1 =>
      let n := permE p p.stepi
      let p' := { p with stepi := p.stepi + 1 }
      if n < p.length then
        match stepRun f p' c with
        | some l => some ((n + (p.limit + 1 - p.length)) :: l)
        | none => none
      else stepRun f p' (c + 1)

/-- Modelled from the spec: the reference balanced Feistel network of the
given number of rounds (round indices ascending from 0), whose round
function F is, per spec section 4.A, TEA truncated to the half-width; the
domain [0, 2^(2*shift)) is split into high and low halves.  This is the
definition the code's dns_k_permutor_E is compared against for claim C5. -/
def feistelN (F : Nat → Nat → Nat) : Nat → Nat → Nat × Nat → Nat × Nat
  | 0, _, lr => lr
  | r + 1, i, lr => feistelN F r (i + 1) (lr.2, lr.1 ^^^ F i lr.2)

def feistelSpec (rounds : Nat) (F : Nat → Nat → Nat) (shift : Nat) (n : Nat) : Nat :=
  let lr := feistelN F rounds 0 ((n / 2 ^ shift) % 2 ^ shift, n % 2 ^ shift)
  lr.1 * 2 ^ shift + lr.2

/-!  Concrete packets used by the claim theorems. -/

/-- A fresh 512-byte packet with the question (x., TXT, IN) pushed, then an
answer record (x., TXT, IN, TTL 0) whose TXT RDATA is empty. -/
def c1Build : Except DErr Packet :=
  (pPush (pNew 512) 1 [120, 46] 16 1 0 none).bind
    (fun P => pPush P 2 [120, 46] 16 1 0 (some (.txt [])))

/-- The packet c1Build produces (it succeeds; see the C1 theorem). -/
def c1Pkt : Packet := match c1Build with | .ok P => P | .error _ => pNew 12

/-- A fresh 512-byte packet with question (x., A, IN), an answer record
(x., A, IN, TTL 0, 1.2.3.4) and an identical additional-section record. -/
def c6Build : Except DErr Packet :=
  (pPush (pNew 512) 1 [120, 46] 1 1 0 none).bind
    (fun P => (pPush P 2 [120, 46] 1 1 0 (some (.a 16909060))).bind
      (fun P => pPush P 8 [120, 46] 1 1 0 (some (.a 16909060))))

/-- The packet c6Build produces (it succeeds; see the C6 theorem). -/
def c6Pkt : Packet := match c6Build with | .ok P => P | .error _ => pNew 12

/-- The result of merging c6Pkt with itself (the merge succeeds; see the
C6 theorem). -/
def c6Merged : Packet := match rMerge c6Pkt c6Pkt with | .ok P => P | .error _ => pNew 12

/-- Wire data of a 16-byte packet whose name at offset 12 is the label "a"
followed by a compression pointer back to offset 12. -/
def c2LoopData : List Nat := List.replicate 12 0 ++ [1, 97, 192, 12]

/-- The two-state cycle of dns_d_expand on c2LoopData: from offset 12 the
label branch resets nptrs and moves to offset 14; the pointer there hops
back to offset 12 with nptrs = 1; the label resets nptrs again, forever. -/
theorem c2_expand_loop_aux : ∀ fuel : Nat,
    (∀ n acc, dExpandGo c2LoopData 16 fuel 12 n acc = .out) ∧
    (∀ acc, dExpandGo c2LoopData 16 fuel 14 0 acc = .out) := by
  intro fuel
  induction fuel with
  | zero => exact ⟨fun _ _ => rfl, fun _ => rfl⟩
  | succ f ih =>
    refine ⟨fun n acc => ?_, fun acc => ?_⟩
    · have h : dExpandGo c2LoopData 16 (f + 1) 12 n acc
          = dExpandGo c2LoopData 16 f 14 0 (acc ++ [97] ++ [46]) := by
        simp [dExpandGo, bget, c2LoopData]
      rw [h]; exact ih.2 _
    · have h : dExpandGo c2LoopData 16 (f + 1) 14 0 acc
          = dExpandGo c2LoopData 16 f 12 1 acc := by
        simp [dExpandGo, bget, c2LoopData]
      rw [h]; exact ih.1 _ _

/-- C2: refuted; the code does not terminate on every input packet.  On the
16-byte packet c2LoopData (label "a" at offset 12 followed by a pointer
back to offset 12), dns_d_expand started at offset 12 never returns: for
every number of loop iterations the model is still running.  The cause is
dns.c line 1013, which resets the pointer-hop counter nptrs to 0 after
every literal label, so the 127-hop cap never trips on a pointer cycle
that passes through a label. -/
theorem c2_dns_d_expand_nonterminating :
    ∀ (fuel n : Nat) (acc : List Nat),
      dExpandGo c2LoopData 16 fuel 12 n acc = .out :=
  fun fuel n acc => (c2_expand_loop_aux fuel).1 n acc

/-- C1: code_bug witness evaluation.  Both pushes succeed (the second is
the empty-TXT answer): the answer count says one record, the record sits at
offset 19 (right after the question), its wire RDLENGTH field reads 1
while the packet ends immediately after that field (end = 31), so parsing
the pushed record fails with DNS_EILLEGAL and iteration over the answer
section finds nothing. -/
theorem c1_empty_txt_push_breaks_parse :
    ∃ P : Packet, c1Build = .ok P ∧
      hdrAncount P = 1 ∧
      rrSkip 12 P = 19 ∧
      get16 P 29 = 1 ∧
      P.pend = 31 ∧
      rrParse 19 P = .error .illegal ∧
      iStart { sect := 2 } P = P.pend :=
  ⟨c1Pkt, by decide, by decide, by decide, by decide, by decide, by decide, by decide⟩

/-- C6: code_bug witness evaluation.  The packet from c6Build carries one
question, one answer record and one identical additional record
(arcount = 1).  dns_r_merge of the packet with itself succeeds but its
duplicate check scans every non-question section of the destination, so
the additional-section copy is dropped: the merged packet has arcount = 0.
Hence merge(A, A) is not A up to per-section RR-set equality. -/
theorem c6_merge_self_drops_ar_record :
    ∃ (A M : Packet), c6Build = .ok A ∧ rMerge A A = .ok M ∧
      hdrQdcount A = 1 ∧ hdrAncount A = 1 ∧ hdrArcount A = 1 ∧
      hdrQdcount M = 1 ∧ hdrAncount M = 1 ∧ hdrArcount M = 0 :=
  ⟨c6Pkt, c6Merged, by decide, by decide, by decide, by decide, by decide,
   by decide, by decide, by decide⟩

end DnsC


namespace DnsC

theorem shiftLeft_lor_eq_add (a b s : Nat) (h : b < 2 ^ s) :
    (a <<< s) ||| b = a * 2 ^ s + b := by
  apply Nat.eq_of_testBit_eq
  intro j
  rw [Nat.testBit_or, Nat.testBit_shiftLeft]
  rw [show a * 2 ^ s + b = 2 ^ s * a + b by ring, Nat.testBit_mul_pow_two_add a h j]
  by_cases hj : j < s
  · simp [hj, Nat.not_le.mpr hj]
  · have hb : b < 2 ^ j := lt_of_lt_of_le h (Nat.pow_le_pow_right (by norm_num) (Nat.le_of_not_lt hj))
    simp [hj, Nat.le_of_not_lt hj, Nat.testBit_lt_two_pow hb]

theorem mask_and (s z : Nat) : z &&& ((1 <<< s) - 1) = z % 2 ^ s := by
  rw [Nat.shiftLeft_eq, one_mul]
  exact Nat.and_pow_two_sub_one_eq_mod z s

theorem mask_and' (s z : Nat) : ((1 <<< s) - 1) &&& z = z % 2 ^ s := by
  rw [Nat.land_comm]; exact mask_and s z

theorem mask_and_lt (s z : Nat) : ((1 <<< s) - 1) &&& z < 2 ^ s := by
  rw [mask_and']; exact Nat.mod_lt _ (Nat.two_pow_pos s)

theorem feistelN_bound {F : Nat → Nat → Nat} {s : Nat} (hF : ∀ i x, F i x < 2 ^ s) :
    ∀ k i lr, lr.1 < 2 ^ s → lr.2 < 2 ^ s →
      (feistelN F k i lr).1 < 2 ^ s ∧ (feistelN F k i lr).2 < 2 ^ s := by
  intro k
  induction k with
  | zero => intro i lr h1 h2; exact ⟨h1, h2⟩
  | succ r ih =>
    intro i lr h1 h2
    exact ih (i + 1) (lr.2, lr.1 ^^^ F i lr.2) h2 (Nat.xor_lt_two_pow h1 (hF i lr.2))

end DnsC

namespace DnsC

theorem two_pow_two_mul (s : Nat) : 2 ^ (2 * s) = 2 ^ s * 2 ^ s := by
  rw [two_mul, pow_add]

theorem permE_eq (p : Permutor) (n : Nat) :
    permE p n
      = ((permEGo p p.rounds 0 (p.mask &&& (n >>> p.shift), p.mask &&& n)).1 &&& p.mask) <<< p.shift
        ||| ((permEGo p p.rounds 0 (p.mask &&& (n >>> p.shift), p.mask &&& n)).2 &&& p.mask) := rfl

theorem permD_eq (p : Permutor) (n : Nat) :
    permD p n
      = ((permDGo p p.rounds (p.rounds - 1) (p.mask &&& (n >>> p.shift), p.mask &&& n)).1 &&& p.mask) <<< p.shift
        ||| ((permDGo p p.rounds (p.rounds - 1) (p.mask &&& (n >>> p.shift), p.mask &&& n)).2 &&& p.mask) := rfl

theorem permEGo_eight (p : Permutor) (hr : p.rounds = 8) (lr : Nat × Nat) :
    permEGo p p.rounds 0 lr = feistelN (permF p) 7 0 lr := by
  rw [hr]
  simp [permEGo, feistelN, hr]

theorem permDGo_permEGo (p : Permutor) (hr : p.rounds = 8) (lr : Nat × Nat) :
    permDGo p p.rounds (p.rounds - 1) (permEGo p p.rounds 0 lr) = lr := by
  rw [hr]
  simp [permEGo, permDGo, hr, Nat.xor_cancel_right]

theorem permF_lt (p : Permutor) (hm : p.mask = (1 <<< p.shift) - 1) (i x : Nat) :
    permF p i x < 2 ^ p.shift := by
  rw [permF, hm]; exact mask_and_lt _ _

theorem permE_split_lt (p : Permutor) (hm : p.mask = (1 <<< p.shift) - 1)
    (hr : p.rounds = 8) (n : Nat) :
    (permEGo p p.rounds 0 (p.mask &&& (n >>> p.shift), p.mask &&& n)).1 < 2 ^ p.shift ∧
    (permEGo p p.rounds 0 (p.mask &&& (n >>> p.shift), p.mask &&& n)).2 < 2 ^ p.shift := by
  rw [permEGo_eight p hr]
  exact feistelN_bound (permF_lt p hm) 7 0 _ (by rw [hm]; exact mask_and_lt _ _)
    (by rw [hm]; exact mask_and_lt _ _)

theorem permE_lt (p : Permutor) (hm : p.mask = (1 <<< p.shift) - 1)
    (hr : p.rounds = 8) (n : Nat) : permE p n < 2 ^ (2 * p.shift) := by
  obtain ⟨h1, h2⟩ := permE_split_lt p hm hr n
  rw [permE_eq, hm, mask_and, mask_and, Nat.mod_eq_of_lt (by rw [← hm]; exact h1),
    Nat.mod_eq_of_lt (by rw [← hm]; exact h2),
    shiftLeft_lor_eq_add _ _ _ (by rw [← hm]; exact h2), two_pow_two_mul]
  rw [← hm]
  have hs : ((permEGo p p.rounds 0 (p.mask &&& (n >>> p.shift), p.mask &&& n)).1 + 1)
      * 2 ^ p.shift ≤ 2 ^ p.shift * 2 ^ p.shift :=
    Nat.mul_le_mul_right _ (Nat.succ_le_of_lt h1)
  rw [Nat.add_one_mul] at hs
  omega

theorem permD_permE (p : Permutor) (hm : p.mask = (1 <<< p.shift) - 1)
    (hr : p.rounds = 8) (n : Nat) (hn : n < 2 ^ (2 * p.shift)) :
    permD p (permE p n) = n := by
  obtain ⟨h1, h2⟩ := permE_split_lt p hm hr n
  set e := permEGo p p.rounds 0 (p.mask &&& (n >>> p.shift), p.mask &&& n) with he
  have hEn : permE p n = e.1 * 2 ^ p.shift + e.2 := by
    rw [permE_eq, ← he, hm, mask_and, mask_and, Nat.mod_eq_of_lt h1,
      Nat.mod_eq_of_lt h2, shiftLeft_lor_eq_add _ _ _ h2]
  rw [permD_eq, hEn]
  have hsplit1 : p.mask &&& ((e.1 * 2 ^ p.shift + e.2) >>> p.shift) = e.1 := by
    rw [hm, mask_and', Nat.shiftRight_eq_div_pow, Nat.mul_comm e.1 _,
      Nat.mul_add_div (Nat.two_pow_pos _), Nat.div_eq_of_lt h2, Nat.add_zero,
      Nat.mod_eq_of_lt h1]
  have hsplit2 : p.mask &&& (e.1 * 2 ^ p.shift + e.2) = e.2 := by
    rw [hm, mask_and', Nat.mul_comm e.1 _, Nat.mul_add_mod, Nat.mod_eq_of_lt h2]
  rw [hsplit1, hsplit2]
  rw [show ((e.1, e.2) : Nat × Nat) = e from rfl, he, permDGo_permEGo p hr]
  show ((p.mask &&& (n >>> p.shift)) &&& p.mask) <<< p.shift ||| ((p.mask &&& n) &&& p.mask) = n
  have key : ∀ z : Nat, (p.mask &&& z) &&& p.mask = z % 2 ^ p.shift := fun z => by
    rw [hm, mask_and, mask_and', Nat.mod_eq_of_lt (Nat.mod_lt _ (Nat.two_pow_pos _))]
  have hq : n / 2 ^ p.shift < 2 ^ p.shift := by
    rw [two_pow_two_mul] at hn
    exact Nat.div_lt_of_lt_mul (by rw [Nat.mul_comm]; exact hn)
  rw [key, key, Nat.shiftRight_eq_div_pow, Nat.mod_eq_of_lt hq,
    shiftLeft_lor_eq_add _ _ _ (Nat.mod_lt _ (Nat.two_pow_pos _)), Nat.mul_comm]
  exact Nat.div_add_mod n _

theorem permE_inj (p : Permutor) (hm : p.mask = (1 <<< p.shift) - 1)
    (hr : p.rounds = 8) {a b : Nat} (ha : a < 2 ^ (2 * p.shift))
    (hb : b < 2 ^ (2 * p.shift)) (h : permE p a = permE p b) : a = b := by
  have := permD_permE p hm hr a ha
  rw [h, permD_permE p hm hr b hb] at this
  exact this.symm

end DnsC

namespace DnsC

theorem permE_range_perm (p : Permutor) (hm : p.mask = (1 <<< p.shift) - 1)
    (hr : p.rounds = 8) :
    ((List.range (2 ^ (2 * p.shift))).map (fun k => permE p k)).Perm
      (List.range (2 ^ (2 * p.shift))) := by
  set K := 2 ^ (2 * p.shift) with hK
  set S := (List.range K).map (fun k => permE p k) with hS
  have hnodup : S.Nodup := by
    refine List.Nodup.map_on ?_ (List.nodup_range K)
    intro a ha b hb hab
    exact permE_inj p hm hr (List.mem_range.mp ha) (List.mem_range.mp hb) hab
  have hsub : S.toFinset ⊆ Finset.range K := by
    intro v hv
    rw [List.mem_toFinset, hS] at hv
    obtain ⟨k, _, rfl⟩ := List.mem_map.mp hv
    exact Finset.mem_range.mpr (permE_lt p hm hr k)
  have hcard : S.toFinset = Finset.range K := by
    apply Finset.eq_of_subset_of_card_le hsub
    rw [List.toFinset_card_of_nodup hnodup]
    simp [hS]
  rw [List.perm_ext_iff_of_nodup hnodup (List.nodup_range K)]
  intro v
  constructor
  · intro hv
    have : v ∈ S.toFinset := List.mem_toFinset.mpr hv
    rw [hcard, Finset.mem_range] at this
    exact List.mem_range.mpr this
  · intro hv
    have : v ∈ S.toFinset := by
      rw [hcard]
      exact Finset.mem_range.mpr (List.mem_range.mp hv)
    exact List.mem_toFinset.mp this

theorem filter_range_lt (K N : Nat) (h : N ≤ K) :
    (List.range K).filter (fun v => v < N) = List.range N := by
  obtain ⟨d, rfl⟩ := Nat.exists_eq_add_of_le h
  rw [List.range_add, List.filter_append]
  have h1 : (List.range N).filter (fun v => v < N) = List.range N := by
    apply List.filter_eq_self.mpr
    intro a ha
    exact decide_eq_true (List.mem_range.mp ha)
  have h2 : ((List.range d).map (fun x => N + x)).filter (fun v => v < N) = [] := by
    apply List.filter_eq_nil_iff.mpr
    intro a ha
    obtain ⟨x, _, rfl⟩ := List.mem_map.mp ha
    simp
  rw [h1, h2, List.append_nil]

end DnsC

namespace DnsC

theorem permEGo_stepi (p : Permutor) (i : Nat) : ∀ fuel idx lr,
    permEGo { p with stepi := i } fuel idx lr = permEGo p fuel idx lr := by
  intro fuel
  induction fuel with
  | zero => intro idx lr; rfl
  | succ f ih =>
    intro idx lr
    simp only [permEGo,
      show ∀ k x, permF { p with stepi := i } k x = permF p k x from fun _ _ => rfl,
      show ({ p with stepi := i } : Permutor).rounds = p.rounds from rfl]
    split
    · exact ih _ _
    · rfl

theorem permE_stepi (p : Permutor) (i n : Nat) :
    permE { p with stepi := i } n = permE p n := by
  rw [permE_eq, permE_eq, permEGo_stepi]

theorem stepRun_succ (f : Nat) (p : Permutor) (i c : Nat) :
    stepRun (f + 1) { p with stepi := i } (c + 1)
      = (if permE p i < p.length
         then match stepRun f { p with stepi := i + 1 } c with
              | some l => some ((permE p i + (p.limit + 1 - p.length)) :: l)
              | none => none
         else stepRun f { p with stepi := i + 1 } (c + 1)) := by
  simp only [stepRun, permE_stepi]

theorem stepRun_spec (p : Permutor) : ∀ (f i c : Nat),
    c ≤ (((List.range' i f).map (fun k => permE p k)).filter (fun v => v < p.length)).length →
    stepRun f { p with stepi := i } c
      = some (((((List.range' i f).map (fun k => permE p k)).filter
          (fun v => v < p.length)).take c).map (fun v => v + (p.limit + 1 - p.length))) := by
  intro f
  induction f with
  | zero =>
    intro i c hc
    simp only [List.range'_zero, List.map_nil, List.filter_nil, List.length_nil,
      Nat.le_zero] at hc
    subst hc
    rfl
  | succ f ih =>
    intro i c hc
    cases c with
    | zero => rfl
    | succ c =>
      rw [List.range'_succ, List.map_cons, List.filter_cons] at hc ⊢
      rw [stepRun_succ]
      by_cases hlt : permE p i < p.length
      · rw [if_pos hlt]
        simp [hlt] at hc
        rw [ih (i + 1) c hc]
        simp [hlt]
      · rw [if_neg hlt]
        simp [hlt] at hc
        rw [ih (i + 1) (c + 1) hc]
        simp [hlt]

end DnsC

namespace DnsC

theorem powofGo_pow (j : Nat) : ∀ fuel t, t ≤ j → j - t ≤ fuel →
    powofGo (2 ^ j) fuel (2 ^ t) t = j := by
  intro fuel
  induction fuel with
  | zero =>
    intro t ht hf
    have : t = j := by omega
    subst this
    rfl
  | succ f ih =>
    intro t ht hf
    by_cases h : 2 ^ t < 2 ^ j
    · have htj : t < j := (Nat.pow_lt_pow_iff_right (by norm_num)).mp h
      have hstep : powofGo (2 ^ j) (f + 1) (2 ^ t) t
          = powofGo (2 ^ j) f (2 ^ (t + 1)) (t + 1) := by
        simp only [powofGo, h, if_true]
        rw [show 2 * 2 ^ t = 2 ^ (t + 1) by ring]
      rw [hstep]
      exact ih (t + 1) htj (by omega)
    · have : t = j :=
        Nat.le_antisymm ht ((Nat.pow_le_pow_iff_right (by norm_num)).mp (Nat.le_of_not_lt h))
      subst this
      simp [powofGo, h]

theorem powof_two_pow (j : Nat) : powof (2 ^ j) = j := by
  have h := powofGo_pow j (2 ^ j) 0 (Nat.zero_le j) (by
    have := Nat.lt_two_pow j
    omega)
  simpa [powof] using h

theorem permInit_pow (key : List Nat) (j : Nat) :
    permInit key 0 (2 ^ j - 1)
      = { stepi := 0, length := 2 ^ j, limit := 2 ^ j - 1, shift := (j + j % 2) / 2,
          mask := (1 <<< ((j + j % 2) / 2)) - 1, rounds := 8, key := key } := by
  have h2 : 0 < 2 ^ j := Nat.two_pow_pos j
  have h1 : (2 ^ j - 1) - 0 + 1 = 2 ^ j := by omega
  simp only [permInit, h1, powof_two_pow]

/-- C4: the first N = 2^j calls of dns_k_permutor_step on a permutor
initialised over [0, N-1] succeed (within 2^(2*shift) evaluations of E,
the cycle-walking budget) and emit each of the N values exactly once: the
output list is a permutation of 0..N-1 with no duplicates. -/
theorem c4_permutor_first_period_is_permutation (key : List Nat) (j : Nat) :
    ∃ outs : List Nat,
      stepRun (2 ^ (2 * (permInit key 0 (2 ^ j - 1)).shift))
          (permInit key 0 (2 ^ j - 1)) (2 ^ j) = some outs
        ∧ outs.Perm (List.range (2 ^ j)) ∧ outs.Nodup := by
  set p := permInit key 0 (2 ^ j - 1) with hp
  have hfields := permInit_pow key j
  have hm : p.mask = (1 <<< p.shift) - 1 := by rw [hp, hfields]
  have hr : p.rounds = 8 := by rw [hp, hfields]
  have hlen : p.length = 2 ^ j := by rw [hp, hfields]
  have hlim : p.limit = 2 ^ j - 1 := by rw [hp, hfields]
  have hpe : { p with stepi := 0 } = p := by rw [hp, hfields]
  have hsh : 2 * p.shift = j + j % 2 := by
    rw [hp, hfields]
    show 2 * ((j + j % 2) / 2) = j + j % 2
    omega
  have h2s : 2 ^ j ≤ 2 ^ (2 * p.shift) := by
    rw [hsh]
    exact Nat.pow_le_pow_right (by norm_num) (by omega)
  set K := 2 ^ (2 * p.shift) with hK
  have hperm0 := permE_range_perm p hm hr
  rw [← hK] at hperm0
  have hfilter : (((List.range K).map (fun k => permE p k)).filter
      (fun v => v < p.length)).Perm (List.range (2 ^ j)) := by
    have h1 := List.Perm.filter (fun v => decide (v < p.length)) hperm0
    have h2 : (List.range K).filter (fun v => v < p.length) = List.range (2 ^ j) := by
      rw [hlen]
      exact filter_range_lt K (2 ^ j) h2s
    rw [h2] at h1
    exact h1
  have hlenF : (((List.range K).map (fun k => permE p k)).filter
      (fun v => v < p.length)).length = 2 ^ j := by
    rw [hfilter.length_eq, List.length_range]
  have hspec := stepRun_spec p K 0 (2 ^ j) (by
    rw [← List.range_eq_range', hlenF])
  rw [hpe] at hspec
  rw [← List.range_eq_range'] at hspec
  have hoff : p.limit + 1 - p.length = 0 := by
    rw [hlim, hlen]
    have := Nat.two_pow_pos j
    omega
  rw [hoff] at hspec
  have htake : (((List.range K).map (fun k => permE p k)).filter
      (fun v => v < p.length)).take (2 ^ j)
      = ((List.range K).map (fun k => permE p k)).filter (fun v => v < p.length) := by
    apply List.take_of_length_le
    rw [hlenF]
  rw [htake] at hspec
  simp only [Nat.add_zero, List.map_id'] at hspec
  exact ⟨_, hspec, hfilter, hfilter.nodup_iff.mpr (List.nodup_range _)⟩

end DnsC

namespace DnsC

theorem feistelSpec_eq (r : Nat) (F : Nat → Nat → Nat) (s n : Nat) :
    feistelSpec r F s n
      = (feistelN F r 0 ((n / 2 ^ s) % 2 ^ s, n % 2 ^ s)).1 * 2 ^ s
        + (feistelN F r 0 ((n / 2 ^ s) % 2 ^ s, n % 2 ^ s)).2 := rfl

theorem permE_feistelSpec (p : Permutor) (hm : p.mask = (1 <<< p.shift) - 1)
    (hr : p.rounds = 8) (n : Nat) :
    permE p n = feistelSpec 7 (permF p) p.shift n := by
  obtain ⟨h1, h2⟩ := permE_split_lt p hm hr n
  rw [permEGo_eight p hr] at h1 h2
  rw [permE_eq, permEGo_eight p hr, feistelSpec_eq]
  have hin : (p.mask &&& (n >>> p.shift), p.mask &&& n)
      = ((n / 2 ^ p.shift) % 2 ^ p.shift, n % 2 ^ p.shift) := by
    rw [hm, mask_and', mask_and', Nat.shiftRight_eq_div_pow]
  rw [hin] at h1 h2 ⊢
  rw [hm, mask_and, mask_and, Nat.mod_eq_of_lt h1, Nat.mod_eq_of_lt h2,
    shiftLeft_lor_eq_add _ _ _ h2]

/-- C5 (amended): the permutor's encryption function is a balanced Feistel
network of DNS_K_PERMUTOR_ROUNDS - 1 = 7 rounds (the do-while in
dns_k_permutor_E iterates while i < rounds - 1), with round function TEA
(32 cycles, 128-bit key) truncated to the half-width.  Quantified over
every key, half-width and counter state of a permutor with the source's
mask and round constants. -/
theorem c5_permE_is_seven_round_feistel (st le li sh : Nat) (key : List Nat) (n : Nat) :
    permE ⟨st, le, li, sh, (1 <<< sh) - 1, 8, key⟩ n
      = feistelSpec 7 (permF ⟨st, le, li, sh, (1 <<< sh) - 1, 8, key⟩) sh n :=
  permE_feistelSpec ⟨st, le, li, sh, (1 <<< sh) - 1, 8, key⟩ rfl rfl n

/-- The permutor over [0, 65535] with the all-zero TEA key. -/
def c5P : Permutor := permInit [0, 0, 0, 0] 0 65535

/-- C5: counterexample to the claim as stated.  For the permutor over
[0, 65535] with the all-zero key, E(0) does not equal the 8-round
reference Feistel network at 0 (it equals the 7-round one; see the amended
theorem). -/
theorem c5_not_eight_rounds :
    permE c5P 0 ≠ feistelSpec 8 (permF c5P) c5P.shift 0 := by decide

end DnsC

namespace DnsC

/-!  Transport socket (struct dns_socket): the full dns_so_check state
machine, a UDP query with the TCP fallback taken at DNS_SO_UDP_DONE when
the answer is truncated and the socket type is not SOCK_DGRAM.  The
socket/connect/send syscalls are the library's declared suspension points
and are modelled as succeeding; the UDP recv consumes one datagram from an
input list per call, an empty list standing for a recv that would block
(EAGAIN); the TCP recv consumes one byte stream (the two-byte big-endian
length prefix followed by the declared number of payload bytes), a stream
too short to supply them standing for the peer closing early, which
dns_so_tcp_recv maps to DNS_EUNKNOWN on recv returning 0.  Of the
nondeterministic recv chunkings we model the one where the first recv
delivers exactly the two-byte prefix, so the dns_so_newanswer
realloc-and-init precedes every payload byte. -/

inductive SoState where
  | udpInit
  | udpConn
  | udpSend
  | udpRecv
  | udpDone
  | tcpInit
  | tcpConn
  | tcpSend
  | tcpRecv
  | tcpDone
  deriving DecidableEq, Repr

/-- The socket type passed to dns_so_open and tested by dns_so_check at
DNS_SO_UDP_DONE (so->type == SOCK_DGRAM).  dns.h and the system headers are
not in the tree; these are the system's values (Linux). -/
def SOCK_STREAM : Nat := 1

def SOCK_DGRAM : Nat := 2

/-- The socket fields dns_so_submit caches plus the socket type and the
answer buffer. -/
structure SocketM where
  qid : Nat
  qname : List Nat
  qlen : Nat
  qtype : Nat
  qclass : Nat
  sotype : Nat
  answerCap : Nat
  answer : Packet
  state : SoState
  deriving DecidableEq, Repr

/-- dns_so_verify: transaction id, nonzero question count, first-question
parse, type and class, then the qname compared case-insensitively.  As in
dns.c, the id/count/parse steps read so->answer while the name is expanded
from the packet argument (the caller passes so->answer for both). -/
def dnsSoVerify (so : SocketM) (P : Packet) : Except DErr Unit :=
  if so.qid ≠ hdrQid so.answer then .error .unknown
  else if pCount so.answer 1 = 0 then .error .unknown
  else
    match rrParse 12 so.answer with
    | .error _ => .error .unknown
    | .ok rr =>
      if rr.ty ≠ so.qtype ∨ rr.cls ≠ so.qclass then .error .unknown
      else
        match dExpand rr.dnP P with
        | .ok nm =>
          if nm.length ≠ so.qlen then .error .unknown
          else if ¬ caseEq so.qname nm then .error .unknown
          else .ok ()
        | _ => .error .illegal

/-- The answer packet after recv(2) of one datagram: the payload truncated
to the buffer capacity, with end = number of bytes received. -/
def recvAnswer (so : SocketM) (d : List Nat) : Packet :=
  let n := min d.length so.answerCap
  { size := so.answerCap, pend := n,
    data := d.take so.answerCap ++ List.replicate (so.answerCap - n) 0, dict := [] }

/-- The DNS_SO_UDP_RECV loop of dns_so_check: short datagrams (< 12 bytes)
and datagrams failing verification are trashed and recv is retried; a
verified datagram advances to DNS_SO_UDP_DONE. -/
def soRecvLoop (so : SocketM) : List (List Nat) → Except DErr SocketM
  | [] => .error .again
  | d :: rest =>
    let so' := { so with answer := recvAnswer so d }
    if (recvAnswer so d).pend < 12 then soRecvLoop so' rest
    else
      match dnsSoVerify so' so'.answer with
      | .error _ => soRecvLoop so' rest
      | .ok _ => .ok { so' with state := .udpDone }

/-- dns_so_tcp_recv: the two-byte big-endian length prefix, then
dns_so_newanswer reallocates the answer to hold MAX(alen, DNS_SO_MINBUF)
bytes and alen payload bytes follow; answer->end is set to alen.  A stream
exhausted first is the peer closing early (DNS_EUNKNOWN). -/
def tcpRecvAnswer (stream : List Nat) : Except DErr Packet :=
  if stream.length < 2 then .error .unknown
  else
    let alen := 256 * bget stream 0 + bget stream 1
    if stream.length < 2 + alen then .error .unknown
    else
      let cap := max alen 768
      .ok { size := cap, pend := alen,
            data := (stream.drop 2).take alen ++ List.replicate (cap - alen) 0,
            dict := [] }

/-- DNS_SO_TCP_DONE: an answer shorter than a header is DNS_EILLEGAL;
otherwise dns_so_verify must pass — its failure aborts the query (goto
error, no retry on the TCP path) — and check returns 0, the state staying
DNS_SO_TCP_DONE. -/
def soTcpDone (so : SocketM) : Except DErr SocketM :=
  if so.answer.pend < 12 then .error .illegal
  else
    match dnsSoVerify so so.answer with
    | .error e => .error e
    | .ok _ => .ok so

/-- The TCP leg from any of DNS_SO_TCP_INIT/CONN/SEND/RECV: socket setup,
connect and dns_so_tcp_send succeed (suspension points), dns_so_tcp_recv
replaces the answer, and control falls through into DNS_SO_TCP_DONE. -/
def soTcpPhase (so : SocketM) (stream : List Nat) : Except DErr SocketM :=
  match tcpRecvAnswer stream with
  | .error e => .error e
  | .ok P => soTcpDone { so with answer := P, answerCap := P.size, state := .tcpDone }

/-- DNS_SO_UDP_DONE: return 0 unless the answer's TC bit is set and the
socket type is not SOCK_DGRAM, in which case control falls through to the
TCP states. -/
def soUdpDone (so : SocketM) (stream : List Nat) : Except DErr SocketM :=
  if hdrTc so.answer = false ∨ so.sotype = SOCK_DGRAM then .ok so
  else soTcpPhase { so with state := .tcpInit } stream

/-- dns_so_check: the full switch.  The case fall-through of the C is each
state delegating to the stage below it; error returns propagate to the
caller. -/
def dnsSoCheck (so : SocketM) (dgrams : List (List Nat)) (stream : List Nat) :
    Except DErr SocketM :=
  match so.state with
  | .udpInit =>
    match soRecvLoop { so with state := .udpRecv } dgrams with
    | .error e => .error e
    | .ok so1 => soUdpDone so1 stream
  | .udpConn =>
    match soRecvLoop { so with state := .udpRecv } dgrams with
    | .error e => .error e
    | .ok so1 => soUdpDone so1 stream
  | .udpSend =>
    match soRecvLoop { so with state := .udpRecv } dgrams with
    | .error e => .error e
    | .ok so1 => soUdpDone so1 stream
  | .udpRecv =>
    match soRecvLoop so dgrams with
    | .error e => .error e
    | .ok so1 => soUdpDone so1 stream
  | .udpDone => soUdpDone so stream
  | .tcpInit => soTcpPhase so stream
  | .tcpConn => soTcpPhase so stream
  | .tcpSend => soTcpPhase so stream
  | .tcpRecv => soTcpPhase so stream
  | .tcpDone => soTcpDone so

end DnsC

namespace DnsC

theorem dnsSoVerify_state (so : SocketM) (st : SoState) (P : Packet) :
    dnsSoVerify { so with state := st } P = dnsSoVerify so P := rfl

theorem dnsSoVerify_ok (so : SocketM) (h : dnsSoVerify so so.answer = .ok ()) :
    hdrQid so.answer = so.qid ∧ 1 ≤ pCount so.answer 1 ∧
    ∃ rr, rrParse 12 so.answer = .ok rr ∧ rr.ty = so.qtype ∧ rr.cls = so.qclass ∧
      ∃ nm, dExpand rr.dnP so.answer = .ok nm ∧ nm.length = so.qlen ∧
        caseEq so.qname nm = true := by
  unfold dnsSoVerify at h
  by_cases h1 : so.qid ≠ hdrQid so.answer
  · rw [if_pos h1] at h; cases h
  · rw [if_neg h1] at h
    by_cases h2 : pCount so.answer 1 = 0
    · rw [if_pos h2] at h; cases h
    · rw [if_neg h2] at h
      match hrr : rrParse 12 so.answer with
      | .error e => rw [hrr] at h; cases h
      | .ok rr =>
        rw [hrr] at h
        dsimp only at h
        by_cases h3 : rr.ty ≠ so.qtype ∨ rr.cls ≠ so.qclass
        · rw [if_pos h3] at h; cases h
        · rw [if_neg h3] at h
          match hnm : dExpand rr.dnP so.answer with
          | .illegal => rw [hnm] at h; cases h
          | .out => rw [hnm] at h; cases h
          | .ok nm =>
            rw [hnm] at h
            dsimp only at h
            by_cases h4 : nm.length ≠ so.qlen
            · rw [if_pos h4] at h; cases h
            · rw [if_neg h4] at h
              by_cases h5 : ¬ caseEq so.qname nm
              · rw [if_pos h5] at h; cases h
              · push_neg at h1 h3 h4 h5
                exact ⟨h1.symm, Nat.one_le_iff_ne_zero.mpr h2, rr, rfl, h3.1, h3.2,
                  nm, hnm, h4, by simpa using h5⟩

theorem soRecvLoop_sound (so : SocketM) : ∀ (dgrams : List (List Nat)) (so' : SocketM),
    soRecvLoop so dgrams = .ok so' →
    so'.state = .udpDone ∧ so'.qid = so.qid ∧ so'.qname = so.qname ∧
    so'.qlen = so.qlen ∧ so'.qtype = so.qtype ∧ so'.qclass = so.qclass ∧
    dnsSoVerify so' so'.answer = .ok () := by
  intro dgrams
  induction dgrams generalizing so with
  | nil => intro so' h; cases h
  | cons d rest ih =>
    intro so' h
    simp only [soRecvLoop] at h
    by_cases hn : (recvAnswer so d).pend < 12
    · rw [if_pos hn] at h
      exact ih { so with answer := recvAnswer so d } so' h
    · rw [if_neg hn] at h
      match hv : dnsSoVerify { so with answer := recvAnswer so d }
          ({ so with answer := recvAnswer so d } : SocketM).answer with
      | .error e =>
        rw [hv] at h
        exact ih { so with answer := recvAnswer so d } so' h
      | .ok u =>
        rw [hv] at h
        cases h
        cases u
        exact ⟨rfl, rfl, rfl, rfl, rfl, rfl, hv⟩

theorem soTcpDone_sound (so so' : SocketM) (h : soTcpDone so = .ok so') :
    so' = so ∧ dnsSoVerify so so.answer = .ok () := by
  unfold soTcpDone at h
  by_cases h1 : so.answer.pend < 12
  · rw [if_pos h1] at h; cases h
  · rw [if_neg h1] at h
    match hv : dnsSoVerify so so.answer with
    | .error e => rw [hv] at h; cases h
    | .ok u =>
      rw [hv] at h
      cases h
      cases u
      exact ⟨rfl, rfl⟩

theorem soTcpPhase_sound (so : SocketM) (stream : List Nat) (so' : SocketM)
    (h : soTcpPhase so stream = .ok so') :
    so'.state = .tcpDone ∧ so'.qid = so.qid ∧ so'.qname = so.qname ∧
    so'.qlen = so.qlen ∧ so'.qtype = so.qtype ∧ so'.qclass = so.qclass ∧
    dnsSoVerify so' so'.answer = .ok () := by
  unfold soTcpPhase at h
  match hr : tcpRecvAnswer stream with
  | .error e => rw [hr] at h; cases h
  | .ok P =>
    rw [hr] at h
    dsimp only at h
    obtain ⟨he, hv⟩ := soTcpDone_sound _ _ h
    subst he
    exact ⟨rfl, rfl, rfl, rfl, rfl, rfl, hv⟩

theorem soUdpDone_sound (so : SocketM) (stream : List Nat) (so' : SocketM)
    (hst : so.state = .udpDone) (hvso : dnsSoVerify so so.answer = .ok ())
    (h : soUdpDone so stream = .ok so') :
    (so'.state = .udpDone ∨ so'.state = .tcpDone) ∧ so'.qid = so.qid ∧
    so'.qname = so.qname ∧ so'.qlen = so.qlen ∧ so'.qtype = so.qtype ∧
    so'.qclass = so.qclass ∧ dnsSoVerify so' so'.answer = .ok () := by
  unfold soUdpDone at h
  by_cases hc : hdrTc so.answer = false ∨ so.sotype = SOCK_DGRAM
  · rw [if_pos hc] at h
    cases h
    exact ⟨Or.inl hst, rfl, rfl, rfl, rfl, rfl, hvso⟩
  · rw [if_neg hc] at h
    obtain ⟨s1, s2, s3, s4, s5, s6, s7⟩ := soTcpPhase_sound _ _ _ h
    exact ⟨Or.inr s1, s2, s3, s4, s5, s6, s7⟩

end DnsC

namespace DnsC

/-- C3 (amended): every answer dns_so_check accepts (check returning
success with the socket newly in UDP_DONE, or in TCP_DONE after the
truncation fallback) satisfies the verification predicate: the cached
query key (id, qname, qlen, qtype, qclass) is unchanged, the answer's
transaction id equals it, the answer has AT LEAST one question
(dns_so_verify only requires a nonzero qdcount), the first question
parses, and its type, class and qname match the pending query, the qname
case-insensitively.  Moreover a datagram shorter than a header or failing
the predicate is discarded and the UDP recv retried on the remaining
input rather than the call failing. -/
theorem c3_accepted_answers_verify :
    (∀ (so : SocketM) (dgrams : List (List Nat)) (stream : List Nat) (so' : SocketM),
        so.state ≠ .udpDone → dnsSoCheck so dgrams stream = .ok so' →
        (so'.state = .udpDone ∨ so'.state = .tcpDone) ∧
        so'.qid = so.qid ∧ so'.qname = so.qname ∧
        so'.qlen = so.qlen ∧ so'.qtype = so.qtype ∧ so'.qclass = so.qclass ∧
        (hdrQid so'.answer = so'.qid ∧ 1 ≤ pCount so'.answer 1 ∧
         ∃ rr, rrParse 12 so'.answer = .ok rr ∧ rr.ty = so'.qtype ∧ rr.cls = so'.qclass ∧
           ∃ nm, dExpand rr.dnP so'.answer = .ok nm ∧ nm.length = so'.qlen ∧
             caseEq so'.qname nm = true))
  ∧ (∀ (so : SocketM) (d : List Nat) (rest : List (List Nat)) (stream : List Nat),
        so.state = .udpRecv →
        ((recvAnswer so d).pend < 12 ∨
          dnsSoVerify { so with answer := recvAnswer so d } (recvAnswer so d) ≠ .ok ()) →
        dnsSoCheck so (d :: rest) stream
          = dnsSoCheck { so with answer := recvAnswer so d } rest stream) := by
  constructor
  · intro so dgrams stream so' hst h
    match hs : so.state with
    | .udpDone => exact absurd hs hst
    | .udpInit =>
      simp only [dnsSoCheck, hs] at h
      match hl : soRecvLoop { so with state := .udpRecv } dgrams with
      | .error e => rw [hl] at h; cases h
      | .ok so1 =>
        rw [hl] at h
        dsimp only at h
        obtain ⟨t1, t2, t3, t4, t5, t6, t7⟩ := soRecvLoop_sound _ dgrams so1 hl
        obtain ⟨u1, u2, u3, u4, u5, u6, u7⟩ := soUdpDone_sound so1 stream so' t1 t7 h
        exact ⟨u1, u2.trans t2, u3.trans t3, u4.trans t4, u5.trans t5, u6.trans t6,
          dnsSoVerify_ok so' u7⟩
    | .udpConn =>
      simp only [dnsSoCheck, hs] at h
      match hl : soRecvLoop { so with state := .udpRecv } dgrams with
      | .error e => rw [hl] at h; cases h
      | .ok so1 =>
        rw [hl] at h
        dsimp only at h
        obtain ⟨t1, t2, t3, t4, t5, t6, t7⟩ := soRecvLoop_sound _ dgrams so1 hl
        obtain ⟨u1, u2, u3, u4, u5, u6, u7⟩ := soUdpDone_sound so1 stream so' t1 t7 h
        exact ⟨u1, u2.trans t2, u3.trans t3, u4.trans t4, u5.trans t5, u6.trans t6,
          dnsSoVerify_ok so' u7⟩
    | .udpSend =>
      simp only [dnsSoCheck, hs] at h
      match hl : soRecvLoop { so with state := .udpRecv } dgrams with
      | .error e => rw [hl] at h; cases h
      | .ok so1 =>
        rw [hl] at h
        dsimp only at h
        obtain ⟨t1, t2, t3, t4, t5, t6, t7⟩ := soRecvLoop_sound _ dgrams so1 hl
        obtain ⟨u1, u2, u3, u4, u5, u6, u7⟩ := soUdpDone_sound so1 stream so' t1 t7 h
        exact ⟨u1, u2.trans t2, u3.trans t3, u4.trans t4, u5.trans t5, u6.trans t6,
          dnsSoVerify_ok so' u7⟩
    | .udpRecv =>
      simp only [dnsSoCheck, hs] at h
      match hl : soRecvLoop so dgrams with
      | .error e => rw [hl] at h; cases h
      | .ok so1 =>
        rw [hl] at h
        dsimp only at h
        obtain ⟨t1, t2, t3, t4, t5, t6, t7⟩ := soRecvLoop_sound so dgrams so1 hl
        obtain ⟨u1, u2, u3, u4, u5, u6, u7⟩ := soUdpDone_sound so1 stream so' t1 t7 h
        exact ⟨u1, u2.trans t2, u3.trans t3, u4.trans t4, u5.trans t5, u6.trans t6,
          dnsSoVerify_ok so' u7⟩
    | .tcpInit =>
      simp only [dnsSoCheck, hs] at h
      obtain ⟨s1, s2, s3, s4, s5, s6, s7⟩ := soTcpPhase_sound so stream so' h
      exact ⟨Or.inr s1, s2, s3, s4, s5, s6, dnsSoVerify_ok so' s7⟩
    | .tcpConn =>
      simp only [dnsSoCheck, hs] at h
      obtain ⟨s1, s2, s3, s4, s5, s6, s7⟩ := soTcpPhase_sound so stream so' h
      exact ⟨Or.inr s1, s2, s3, s4, s5, s6, dnsSoVerify_ok so' s7⟩
    | .tcpSend =>
      simp only [dnsSoCheck, hs] at h
      obtain ⟨s1, s2, s3, s4, s5, s6, s7⟩ := soTcpPhase_sound so stream so' h
      exact ⟨Or.inr s1, s2, s3, s4, s5, s6, dnsSoVerify_ok so' s7⟩
    | .tcpRecv =>
      simp only [dnsSoCheck, hs] at h
      obtain ⟨s1, s2, s3, s4, s5, s6, s7⟩ := soTcpPhase_sound so stream so' h
      exact ⟨Or.inr s1, s2, s3, s4, s5, s6, dnsSoVerify_ok so' s7⟩
    | .tcpDone =>
      simp only [dnsSoCheck, hs] at h
      obtain ⟨he, hv⟩ := soTcpDone_sound so so' h
      subst he
      exact ⟨Or.inr hs, rfl, rfl, rfl, rfl, rfl, dnsSoVerify_ok _ hv⟩
  · intro so d rest stream hst hbad
    have hloop : soRecvLoop so (d :: rest)
        = soRecvLoop { so with answer := recvAnswer so d } rest := by
      simp only [soRecvLoop]
      by_cases hn : (recvAnswer so d).pend < 12
      · rw [if_pos hn]
      · rw [if_neg hn]
        match hv : dnsSoVerify { so with answer := recvAnswer so d }
            ({ so with answer := recvAnswer so d } : SocketM).answer with
        | .error e => dsimp only
        | .ok u =>
          cases u
          cases hbad with
          | inl hb => exact absurd hb hn
          | inr hb => exact absurd hv hb
    rw [hst] at hloop
    simp only [dnsSoCheck, hst]
    rw [hloop]

end DnsC

namespace DnsC

/-- A SOCK_DGRAM socket with a pending (x., A, IN) query, id 7, awaiting a
datagram. -/
def c3So : SocketM :=
  { qid := 7, qname := [120, 46], qlen := 2, qtype := 1, qclass := 1,
    sotype := SOCK_DGRAM, answerCap := 768, answer := pInit 768,
    state := .udpRecv }

/-- A response datagram with qdcount = 2: id 7, QR set, question 1 is
(x., A, IN) and question 2 is (y., A, IN). -/
def c3Dgram2qd : List Nat :=
  [0, 7, 128, 0, 0, 2, 0, 0, 0, 0, 0, 0,
   1, 120, 0, 0, 1, 0, 1,
   1, 121, 0, 0, 1, 0, 1]

/-- The socket after checking with that datagram (accepted; see the C3
counterexample theorem). -/
def c3SoAfter : SocketM :=
  match dnsSoCheck c3So [c3Dgram2qd] [] with
  | .ok s => s
  | .error _ => c3So

/-- C3: counterexample to the claim as stated.  A datagram carrying two
questions is accepted by dns_so_check (dns_so_verify only checks that the
question count is nonzero), so an accepted answer need not contain exactly
one question. -/
theorem c3_two_question_datagram_accepted :
    dnsSoCheck c3So [c3Dgram2qd] [] = .ok c3SoAfter ∧
    c3SoAfter.state = .udpDone ∧ hdrQdcount c3SoAfter.answer = 2 :=
  ⟨by decide, by decide, by decide⟩

/-- A well-formed response datagram with exactly one matching question. -/
def c3DgramGood : List Nat :=
  [0, 7, 128, 0, 0, 1, 0, 0, 0, 0, 0, 0,
   1, 120, 0, 0, 1, 0, 1]

/-- The socket after accepting c3DgramGood over UDP. -/
def c3SoGood : SocketM :=
  match dnsSoCheck c3So [c3DgramGood] [] with
  | .ok s => s
  | .error _ => c3So

/-- A SOCK_STREAM socket for the same query, resumed at DNS_SO_TCP_RECV. -/
def c3SoTcp : SocketM :=
  { c3So with sotype := SOCK_STREAM, state := .tcpRecv }

/-- The good response as a TCP stream: two-byte length prefix, then the
19-byte message. -/
def c3StreamGood : List Nat := 0 :: 19 :: c3DgramGood

/-- The socket after accepting c3StreamGood over TCP. -/
def c3SoTcpAfter : SocketM :=
  match dnsSoCheck c3SoTcp [] c3StreamGood with
  | .ok s => s
  | .error _ => c3SoTcp

/-- Witness for the C3 theorem: a concrete accepted answer satisfying the
predicate on each of the UDP path and the TCP fallback path, and a
concrete short datagram being discarded with recv retried. -/
theorem c3_accepted_answers_verify_witness :
    ((c3SoGood.state = .udpDone ∨ c3SoGood.state = .tcpDone) ∧
     c3SoGood.qid = c3So.qid ∧ c3SoGood.qname = c3So.qname ∧
     c3SoGood.qlen = c3So.qlen ∧ c3SoGood.qtype = c3So.qtype ∧ c3SoGood.qclass = c3So.qclass ∧
     (hdrQid c3SoGood.answer = c3SoGood.qid ∧ 1 ≤ pCount c3SoGood.answer 1 ∧
      ∃ rr, rrParse 12 c3SoGood.answer = .ok rr ∧ rr.ty = c3SoGood.qtype ∧
        rr.cls = c3SoGood.qclass ∧
        ∃ nm, dExpand rr.dnP c3SoGood.answer = .ok nm ∧ nm.length = c3SoGood.qlen ∧
          caseEq c3SoGood.qname nm = true))
  ∧ ((c3SoTcpAfter.state = .udpDone ∨ c3SoTcpAfter.state = .tcpDone) ∧
     c3SoTcpAfter.qid = c3SoTcp.qid ∧ c3SoTcpAfter.qname = c3SoTcp.qname ∧
     c3SoTcpAfter.qlen = c3SoTcp.qlen ∧ c3SoTcpAfter.qtype = c3SoTcp.qtype ∧
     c3SoTcpAfter.qclass = c3SoTcp.qclass ∧
     (hdrQid c3SoTcpAfter.answer = c3SoTcpAfter.qid ∧ 1 ≤ pCount c3SoTcpAfter.answer 1 ∧
      ∃ rr, rrParse 12 c3SoTcpAfter.answer = .ok rr ∧ rr.ty = c3SoTcpAfter.qtype ∧
        rr.cls = c3SoTcpAfter.qclass ∧
        ∃ nm, dExpand rr.dnP c3SoTcpAfter.answer = .ok nm ∧ nm.length = c3SoTcpAfter.qlen ∧
          caseEq c3SoTcpAfter.qname nm = true))
  ∧ dnsSoCheck c3So ([5, 5] :: [c3DgramGood]) []
      = dnsSoCheck { c3So with answer := recvAnswer c3So [5, 5] } [c3DgramGood] [] :=
  ⟨c3_accepted_answers_verify.1 c3So [c3DgramGood] [] c3SoGood (by decide) (by decide),
   c3_accepted_answers_verify.1 c3SoTcp [] c3StreamGood c3SoTcpAfter (by decide) (by decide),
   c3_accepted_answers_verify.2 c3So [5, 5] [c3DgramGood] [] (by decide) (Or.inl (by decide))⟩

end DnsC

namespace DnsC

/-!  Resolver fragments.  Two focused models of dns_r_exec state handlers:
the FOREACH_A / QUERY_A address-retry loop (claim C7) and the
SWITCH / SERVFAIL / DONE exhaustion path (claim C9).  Fields not read by
the modelled handlers are omitted; the attempts option is carried
explicitly because claim C7 is about whether it is consulted. -/

inductive RAState where
  | foreachA
  | queryA
  | resolv0NS
  | foreachNS
  deriving DecidableEq, Repr

/-- The state dns_r_exec's DNS_R_FOREACH_A / DNS_R_QUERY_A handlers touch:
the A glue records of the hints packet matching the current nameserver
(hints_j iteration order), the iterator position and count (for hints_j
they coincide), the number of dns_so_submit calls issued, and the resconf
options.  attemptsOpt mirrors resconf.options.attempts. -/
structure QAFrame where
  glue : List Nat
  j : Nat
  st : RAState
  submits : Nat
  attemptsOpt : Nat
  timeout : Nat
  deriving DecidableEq, Repr

/-- DNS_R_FOREACH_A (dns.c lines 4593-4628): grep the next A record for
the current nameserver; if found, submit the query to it (one transport
attempt) and enter QUERY_A; if the iterator never produced a record, go
resolve the nameserver's address (RESOLV0_NS), else move to the next
nameserver (FOREACH_NS). -/
def stepForeachA (F : QAFrame) : QAFrame :=
  if F.j < F.glue.length then
    { F with j := F.j + 1, submits := F.submits + 1, st := .queryA }
  else if F.j = 0 then { F with st := .resolv0NS }
  else { F with st := .foreachNS }

/-- DNS_R_QUERY_A on entry (dns.c lines 4629-4631): when the elapsed time
of the in-flight attempt has reached resconf.options.timeout, go back to
FOREACH_A to try the next address.  (Otherwise the handler consults
dns_so_check; that continuation is outside this model.) -/
def stepQueryATimeout (F : QAFrame) (elapsed : Nat) : QAFrame :=
  if elapsed ≥ F.timeout then { F with st := .foreachA } else F

/-- Drive the two-state fragment with every attempt timing out. -/
def runTimeouts : Nat → QAFrame → QAFrame
  | 0, F => F
  | n + 1, F =>
    match F.st with
    | .foreachA => runTimeouts n (stepForeachA F)
    | .queryA => runTimeouts n (stepQueryATimeout F F.timeout)
    | _ => F

/-- Initial frame: three glue addresses for the current nameserver, the
default resconf options (attempts 2, timeout 5), no attempts yet. -/
def c7F0 : QAFrame :=
  { glue := [1, 2, 3], j := 0, st := .foreachA, submits := 0, attemptsOpt := 2, timeout := 5 }

/-- C7: counterexample to the attempts bound.  With three glue addresses
and every attempt timing out, the FOREACH_A / QUERY_A loop issues three
transport submissions although resconf.options.attempts is 2 (the
attempts field is never consulted by dns_r_exec); only when the addresses
are exhausted does the machine move on to the next nameserver. -/
theorem c7_attempts_exceed_option :
    (runTimeouts 8 c7F0).submits = 3 ∧ c7F0.attemptsOpt = 2 ∧ 2 < 3 ∧
    (runTimeouts 8 c7F0).st = .foreachNS :=
  ⟨by decide, by decide, by decide, by decide⟩

/-- C7 (amended): on timeout of the current attempt the machine advances
to FOREACH_A to try the next address; and both handlers are invariant
under the value of resconf.options.attempts, so the number of transport
attempts is bounded by the supply of candidate addresses, not by the
attempts option. -/
theorem c7_timeout_advances_attempts_unused :
    (∀ (F : QAFrame) (elapsed : Nat), F.st = .queryA → elapsed ≥ F.timeout →
        (stepQueryATimeout F elapsed).st = .foreachA)
  ∧ (∀ (F : QAFrame) (a elapsed : Nat),
        (stepForeachA { F with attemptsOpt := a }).submits = (stepForeachA F).submits
      ∧ (stepForeachA { F with attemptsOpt := a }).st = (stepForeachA F).st
      ∧ (stepForeachA { F with attemptsOpt := a }).j = (stepForeachA F).j
      ∧ (stepQueryATimeout { F with attemptsOpt := a } elapsed).st
          = (stepQueryATimeout F elapsed).st) := by
  constructor
  · intro F elapsed _ ht
    simp [stepQueryATimeout, ht]
  · intro F a elapsed
    refine ⟨?_, ?_, ?_, ?_⟩ <;>
      · simp only [stepForeachA, stepQueryATimeout]
        repeat' split
        all_goals rfl

/-- Witness for the C7 theorem at a concrete timed-out frame. -/
theorem c7_timeout_advances_attempts_unused_witness :
    (stepQueryATimeout { c7F0 with st := .queryA } 5).st = .foreachA ∧
    (stepForeachA { c7F0 with attemptsOpt := 9 }).submits = (stepForeachA c7F0).submits :=
  ⟨c7_timeout_advances_attempts_unused.1 { c7F0 with st := .queryA } 5 (by decide) (by decide),
   (c7_timeout_advances_attempts_unused.2 c7F0 9 0).1⟩

end DnsC

namespace DnsC

inductive RSState where
  | rswitch
  | rfile
  | rbind
  | rservfail
  | rdone
  deriving DecidableEq, Repr

/-- The frame fields dns_r_exec's SWITCH / SERVFAIL / DONE handlers touch:
the resconf lookup array ('b' = 98 means bind, 'f' = 102 file, anything
else is skipped), the scan position F->which, the query and answer
packets, and the frame state.  The model covers the top frame (sp = 0). -/
structure RFrame where
  lookup : List Nat
  which : Nat
  query : Packet
  answer : Option Packet
  state : RSState
  deriving DecidableEq, Repr

/-- The answer DNS_R_SERVFAIL synthesizes: a copy of the query with RCODE
set to DNS_RC_SERVFAIL = 2. -/
def servfailAns (Q : Packet) : Packet :=
  hdrSetRcode (pCopy (pInit (pSizeof Q)) Q) 2

/-- The RCODE field: low nibble of header byte 3. -/
def hdrRcode (P : Packet) : Nat := bget P.data 3 % 16

/-- dns_r_exec restricted to the DNS_R_SWITCH, DNS_R_SERVFAIL and
DNS_R_DONE handlers of the top frame (dns.c lines 4470-4482, 4806-4821):
SWITCH scans resconf->lookup from F->which, dispatching to BIND or FILE
(where this model stops) and falling to SERVFAIL on exhaustion; SERVFAIL
installs the copied-query answer with RCODE 2 and goes to DONE; DONE on
the top frame returns 0.  One unit of fuel per goto. -/
def rExec : Nat → RFrame → Except DErr RFrame
  | 0, _ => .error .nonterm
  | fuel + 1, F =>
    match F.state with
    | .rswitch =>
      if F.which < F.lookup.length then
        let c := bget F.lookup F.which
        let F' := { F with which := F.which + 1 }
        if c = 98 then .ok { F' with state := .rbind }
        else if c = 102 then .ok { F' with state := .rfile }
        else rExec fuel F'
      else rExec fuel { F with state := .rservfail }
    | .rservfail => rExec fuel { F with answer := some (servfailAns F.query), state := .rdone }
    | .rdone => .ok F
    | .rbind => .ok F
    | .rfile => .ok F

/-- dns_r_fetch on the top frame: the answer is available exactly in
DNS_R_DONE. -/
def rFetch (F : RFrame) : Option Packet :=
  if F.state = .rdone then F.answer else none

theorem servfailAns_pend (Q : Packet) : (servfailAns Q).pend = Q.pend := by
  simp only [servfailAns, hdrSetRcode, pCopy, pInit, pSizeof, pCalcsize]
  omega

theorem bget_lset_same (l : List Nat) (i v : Nat) : bget (lset l i v) i = v := by
  unfold bget lset
  by_cases h : i < l.length
  · simp [h]
  · rw [if_neg h]
    rw [List.getD_eq_getElem?_getD]
    rw [List.getElem?_append_right (by simp; omega)]
    have hlen : (l ++ List.replicate (i - l.length) 0).length = i := by
      simp; omega
    rw [hlen]
    simp

theorem hdrRcode_servfailAns (Q : Packet) : hdrRcode (servfailAns Q) = 2 := by
  simp only [servfailAns, hdrRcode, hdrSetRcode]
  rw [bget_lset_same]
  omega

/-- Exhausted-lookup tail: once which is past the lookup entries, SWITCH
falls through to SERVFAIL and then DONE within two gotos. -/
theorem rExec_exhausted (m : Nat) (F : RFrame) (hst : F.state = .rswitch)
    (hw : ¬ F.which < F.lookup.length) :
    rExec (m + 3) F
      = .ok { F with answer := some (servfailAns F.query), state := .rdone } := by
  show rExec (m + 2 + 1) F = _
  rw [rExec, hst]
  dsimp only
  rw [if_neg hw]
  show rExec (m + 1 + 1) _ = _
  rw [rExec]
  rfl

theorem rExec_switch_aux : ∀ (n : Nat) (F : RFrame), F.state = .rswitch →
    F.lookup.length - F.which ≤ n →
    (∀ c ∈ F.lookup.drop F.which, c ≠ 98 ∧ c ≠ 102) →
    ∃ F', rExec (n + 3) F = .ok F' ∧ F'.state = .rdone ∧
      F'.answer = some (servfailAns F.query) ∧ F'.query = F.query := by
  intro n
  induction n with
  | zero =>
    intro F hst hw _
    refine ⟨_, rExec_exhausted 0 F hst (by omega), rfl, rfl, rfl⟩
  | succ n ih =>
    intro F hst hw hbf
    by_cases hlt : F.which < F.lookup.length
    · have hmem : bget F.lookup F.which ∈ F.lookup.drop F.which := by
        have hne2 : F.lookup.drop F.which ≠ [] := by
          have hlen : (F.lookup.drop F.which).length = F.lookup.length - F.which :=
            List.length_drop _ _
          intro h
          rw [h] at hlen
          simp at hlen
          omega
        obtain ⟨x, xs, hd⟩ := List.exists_cons_of_ne_nil hne2
        have hx : bget F.lookup F.which = x := by
          have h0 := List.getElem?_drop F.lookup F.which 0
          rw [hd] at h0
          simp only [List.getElem?_cons_zero, Nat.add_zero] at h0
          unfold bget
          rw [List.getD_eq_getElem?_getD, ← h0]
          rfl
        rw [hx, hd]
        simp
      obtain ⟨hnb, hnf⟩ := hbf _ hmem
      have hstep : rExec (n + 1 + 3) F = rExec (n + 3) { F with which := F.which + 1 } := by
        show rExec (n + 3 + 1) F = _
        rw [rExec, hst]
        dsimp only
        rw [if_pos hlt, if_neg hnb, if_neg hnf]
      have hdrop : ∀ c ∈ F.lookup.drop (F.which + 1), c ≠ 98 ∧ c ≠ 102 := by
        intro c hc
        apply hbf
        have : F.lookup.drop (F.which + 1) = (F.lookup.drop F.which).drop 1 := by
          rw [List.drop_drop]
        rw [this] at hc
        exact List.drop_subset 1 _ hc
      obtain ⟨F', h1, h2, h3, h4⟩ := ih { F with which := F.which + 1 } hst (by simp; omega) hdrop
      exact ⟨F', hstep ▸ h1, h2, h3, h4⟩
    · exact ⟨_, rExec_exhausted (n + 1) F hst hlt, rfl, rfl, rfl⟩

/-- C9: when the resolver has exhausted the configured lookup methods (no
'b'ind or 'f'ile entry remains at or after F->which), dns_r_exec runs
SWITCH into SERVFAIL, synthesizes the answer by copying the query and
setting RCODE to SERVFAIL = 2, reaches the terminal DONE state, returns
success, and the answer is available via dns_r_fetch. -/
theorem c9_exhaustion_servfail_done (F : RFrame) (hst : F.state = .rswitch)
    (hbf : ∀ c ∈ F.lookup.drop F.which, c ≠ 98 ∧ c ≠ 102) :
    ∃ F', rExec (F.lookup.length + 3) F = .ok F' ∧
      F'.state = .rdone ∧
      F'.answer = some (servfailAns F.query) ∧
      rFetch F' = some (servfailAns F.query) ∧
      hdrRcode (servfailAns F.query) = 2 ∧
      (servfailAns F.query).pend = F.query.pend := by
  obtain ⟨F', h1, h2, h3, _⟩ := rExec_switch_aux F.lookup.length F hst (by omega) hbf
  refine ⟨F', h1, h2, h3, ?_, hdrRcode_servfailAns _, servfailAns_pend _⟩
  rw [rFetch, if_pos h2, h3]

/-- Witness for the C9 theorem: a frame whose lookup order "bf" has been
fully consumed (which = 2). -/
def c9F : RFrame :=
  { lookup := [98, 102, 0, 0], which := 4, query := c1Pkt, answer := none, state := .rswitch }

theorem c9_exhaustion_servfail_done_witness :
    ∃ F', rExec (c9F.lookup.length + 3) c9F = .ok F' ∧
      F'.state = .rdone ∧
      F'.answer = some (servfailAns c9F.query) ∧
      rFetch F' = some (servfailAns c9F.query) ∧
      hdrRcode (servfailAns c9F.query) = 2 ∧
      (servfailAns c9F.query).pend = c9F.query.pend :=
  c9_exhaustion_servfail_done c9F (by decide) (by decide)

end DnsC

namespace DnsC

/-- The two fields of struct dns_resolv_conf that dns_resconf_search
consults: options.ndots and the search array.  struct dns_resolv_conf is
declared in dns.h, absent from src/, so the shape is taken from dns.c's
uses: search is a fixed array of NUL-terminated entries (capacity
lengthof(resconf->search)), modelled as a list whose length is the
capacity and whose unset slots are the empty string. -/
structure Resconf8 where
  ndots : Nat
  search : List (List Nat)
  deriving DecidableEq, Repr

/-- Array indexing resconf->search[i]. -/
def sget (l : List (List Nat)) (i : Nat) : List Nat := l.getD i []

/-- The state repack at the end of dns_resconf_search:
((0xff & *state) << 0) | ((0xff & srchi) << 8) | ((0xff & ndots) << 16). -/
def searchPack (st srchi nd : Nat) : Nat :=
  ((255 &&& st) ||| ((255 &&& srchi) <<< 8)) ||| ((255 &&& nd) <<< 16)

/-- The case 2 tail of dns_resconf_search: ++*state, then the bare
(anchored) qname if the dot count fell short of ndots, else nothing. -/
def searchCase2 (q : List Nat) (rc : Resconf8) (st srchi nd : Nat) :
    List Nat × Nat :=
  if nd < rc.ndots then (dAnchor q, searchPack (st + 1) srchi nd)
  else ([], searchPack (st + 1) srchi nd)

/-- The case 1 body of dns_resconf_search: while a nonempty search entry
remains, emit anchor(qname) ++ search[srchi] and bump srchi; otherwise
++*state and fall through to case 2. -/
def searchCase1 (q : List Nat) (rc : Resconf8) (st srchi nd : Nat) :
    List Nat × Nat :=
  if srchi < rc.search.length ∧ sget rc.search srchi ≠ [] then
    (dAnchor q ++ sget rc.search srchi, searchPack st (srchi + 1) nd)
  else searchCase2 q rc (st + 1) srchi nd

/-- dns_resconf_search (dns.c 3075-3135).  The iterator state packs the
switch phase, srchi and ndots into one integer.  Case 0 counts the dots
of qname and emits the anchored qname when the count meets options.ndots;
the destination limit and NUL termination (dns__printnul) are not
modelled, the returned string is the emitted candidate, [] standing for
the length-0 end marker. -/
def resconfSearch (q : List Nat) (rc : Resconf8) (st0 : Nat) :
    List Nat × Nat :=
  let srchi := 255 &&& (st0 >>> 8)
  let nd0 := 255 &&& (st0 >>> 16)
  let phase := 255 &&& st0
  if phase = 0 then
    let nd := nd0 + q.countP (fun c => c = 46)
    if rc.ndots ≤ nd then (dAnchor q, searchPack (st0 + 1) srchi nd)
    else searchCase1 q rc (st0 + 1) srchi nd
  else if phase = 1 then searchCase1 q rc st0 srchi nd0
  else if phase = 2 then searchCase2 q rc st0 srchi nd0
  else ([], searchPack st0 srchi nd0)

/-- Successive candidates produced by iterating dns_resconf_search until
it returns length 0, as dns_r_exec frame 0 does. -/
def searchCandsGo : Nat → List Nat → Resconf8 → Nat → List (List Nat)
  | 0, _, _, _ => []
  | fuel + 1, q, rc, st =>
    if (resconfSearch q rc st).1 = [] then []
    else (resconfSearch q rc st).1 ::
      searchCandsGo fuel q rc (resconfSearch q rc st).2

/-- All candidates from a fresh iterator state. -/
def searchCands (q : List Nat) (rc : Resconf8) : List (List Nat) :=
  searchCandsGo (rc.search.length + 3) q rc 0

/-- The prefix of search entries the scan actually reaches: it stops at
the first empty slot. -/
def takeNonempty : List (List Nat) → List (List Nat)
  | [] => []
  | e :: es => if e = [] then [] else e :: takeNonempty es

/-- spec-modelled: the candidate sequence exactly as the claim words it -
the anchored qname first when the dot count meets ndots, then the qname
suffixed with every configured search entry, then the bare qname. -/
def specSearchCands (q : List Nat) (rc : Resconf8) : List (List Nat) :=
  (if rc.ndots ≤ q.countP (fun c => c = 46) then [dAnchor q] else []) ++
    rc.search.map (fun s => dAnchor q ++ s) ++ [q]

/-- qname "foo.bar" (one dot). -/
def c8q : List Nat := [102, 111, 111, 46, 98, 97, 114]

/-- resconf with default ndots 1 and one search entry "x.y.". -/
def c8rc : Resconf8 := { ndots := 1, search := [[120, 46, 121, 46]] }

theorem land255_eq (x : Nat) : 255 &&& x = x % 256 := by
  have h := mask_and' 8 x
  rw [show ((1 <<< 8 - 1 : Nat)) = 255 from by decide] at h
  rw [show ((2 : Nat) ^ 8) = 256 from by norm_num] at h
  exact h

theorem searchPack_eq (st s n : Nat) :
    searchPack st s n = st % 256 + s % 256 * 256 + n % 256 * 65536 := by
  unfold searchPack
  rw [land255_eq, land255_eq, land255_eq]
  have e8 : (2 : Nat) ^ 8 = 256 := by norm_num
  have e16 : (2 : Nat) ^ 16 = 65536 := by norm_num
  rw [Nat.lor_comm (st % 256),
    shiftLeft_lor_eq_add _ _ _ (by rw [e8]; omega)]
  rw [Nat.lor_comm,
    shiftLeft_lor_eq_add _ _ _ (by rw [e8, e16]; omega)]
  rw [e8, e16]
  omega

theorem searchPack_phase (st s n : Nat) :
    255 &&& searchPack st s n = st % 256 := by
  rw [land255_eq, searchPack_eq]
  omega

theorem searchPack_srchi (st s n : Nat) (h : s < 256) :
    255 &&& (searchPack st s n >>> 8) = s := by
  rw [Nat.shiftRight_eq_div_pow, land255_eq, searchPack_eq,
    show ((2 : Nat) ^ 8) = 256 from by norm_num]
  omega

theorem searchPack_ndots (st s n : Nat) (h : n < 256) :
    255 &&& (searchPack st s n >>> 16) = n := by
  rw [Nat.shiftRight_eq_div_pow, land255_eq, searchPack_eq,
    show ((2 : Nat) ^ 16) = 65536 from by norm_num]
  omega

theorem sget_append (pre : List (List Nat)) (e : List Nat)
    (rest : List (List Nat)) : sget (pre ++ e :: rest) pre.length = e := by
  unfold sget
  rw [List.getD_eq_getElem?_getD, List.getElem?_append_right (le_refl _)]
  simp

theorem dAnchor_ne_nil (q : List Nat) (hq : q ≠ []) : dAnchor q ≠ [] := by
  unfold dAnchor
  rw [if_neg (show ¬ q.length = 0 from fun h => hq (List.length_eq_zero.mp h))]
  split
  · exact hq
  · simp

theorem resconfSearch_zero (q : List Nat) (rc : Resconf8) :
    resconfSearch q rc 0 =
      (if rc.ndots ≤ q.countP (fun c => c = 46)
       then (dAnchor q, searchPack 1 0 (q.countP (fun c => c = 46)))
       else searchCase1 q rc 1 0 (q.countP (fun c => c = 46))) := by
  simp only [resconfSearch]
  rw [show ((0 : Nat) >>> 8) = 0 from by decide,
    show ((0 : Nat) >>> 16) = 0 from by decide,
    show ((255 : Nat) &&& 0) = 0 from by decide]
  norm_num

theorem resconfSearch_phase1 (q : List Nat) (rc : Resconf8) (st : Nat)
    (h : 255 &&& st = 1) :
    resconfSearch q rc st =
      searchCase1 q rc st (255 &&& (st >>> 8)) (255 &&& (st >>> 16)) := by
  simp only [resconfSearch]
  rw [h]
  norm_num

theorem resconfSearch_phase3 (q : List Nat) (rc : Resconf8) (st : Nat)
    (h : 255 &&& st = 3) :
    resconfSearch q rc st =
      ([], searchPack st (255 &&& (st >>> 8)) (255 &&& (st >>> 16))) := by
  simp only [resconfSearch]
  rw [h]
  norm_num

theorem searchCandsGo_succ (f : Nat) (q : List Nat) (rc : Resconf8)
    (st : Nat) :
    searchCandsGo (f + 1) q rc st =
      (if (resconfSearch q rc st).1 = [] then []
       else (resconfSearch q rc st).1 ::
         searchCandsGo f q rc (resconfSearch q rc st).2) := rfl

theorem c8_exhaustAux (q : List Nat) (rc : Resconf8) (hq : dAnchor q ≠ [])
    (st f i D : Nat) (hph : 255 &&& st = 1) (hsr : 255 &&& (st >>> 8) = i)
    (hnd : 255 &&& (st >>> 16) = D) (hf : 1 ≤ f)
    (hcond : ¬ (i < rc.search.length ∧ sget rc.search i ≠ [])) :
    searchCandsGo (f + 1) q rc st =
      if rc.ndots ≤ D then [] else [dAnchor q] := by
  simp only [searchCandsGo]
  rw [resconfSearch_phase1 q rc st hph, hsr, hnd]
  simp only [searchCase1]
  rw [if_neg hcond]
  simp only [searchCase2]
  by_cases hc : rc.ndots ≤ D
  · rw [if_neg (show ¬ D < rc.ndots by omega)]
    simp [hc]
  · rw [if_pos (show D < rc.ndots by omega)]
    dsimp only
    rw [if_neg hq]
    obtain ⟨f', rfl⟩ : ∃ f', f = f' + 1 := ⟨f - 1, by omega⟩
    simp only [searchCandsGo]
    have hph' : st % 256 = 1 := by rw [← land255_eq]; exact hph
    rw [resconfSearch_phase3 q rc _ (by rw [searchPack_phase]; omega)]
    simp [hc]

theorem c8_loopAux (q : List Nat) (rc : Resconf8) (hq : dAnchor q ≠ [])
    (hs : rc.search.length ≤ 255) (D : Nat) (hD : D ≤ 255) :
    ∀ rest pre st fuel, rc.search = pre ++ rest →
      255 &&& st = 1 → 255 &&& (st >>> 8) = pre.length →
      255 &&& (st >>> 16) = D → rest.length + 2 ≤ fuel →
      searchCandsGo fuel q rc st =
        (takeNonempty rest).map (fun s => dAnchor q ++ s) ++
          (if rc.ndots ≤ D then [] else [dAnchor q]) := by
  intro rest
  induction rest with
  | nil =>
    intro pre st fuel hsplit hph hsr hnd hfuel
    obtain ⟨f, rfl⟩ : ∃ f, fuel = f + 1 := ⟨fuel - 1, by omega⟩
    have hcond : ¬ (pre.length < rc.search.length ∧
        sget rc.search pre.length ≠ []) := by
      rintro ⟨h1, _⟩
      rw [hsplit] at h1
      simp at h1
    rw [c8_exhaustAux q rc hq st f pre.length D hph hsr hnd (by omega) hcond]
    simp [takeNonempty]
  | cons e es ih =>
    intro pre st fuel hsplit hph hsr hnd hfuel
    obtain ⟨f, rfl⟩ : ∃ f, fuel = f + 1 := ⟨fuel - 1, by omega⟩
    by_cases he : e = []
    · subst he
      have hcond : ¬ (pre.length < rc.search.length ∧
          sget rc.search pre.length ≠ []) := by
        rintro ⟨_, h2⟩
        exact h2 (by rw [hsplit, sget_append])
      rw [c8_exhaustAux q rc hq st f pre.length D hph hsr hnd (by omega) hcond]
      simp [takeNonempty]
    · simp only [searchCandsGo]
      rw [resconfSearch_phase1 q rc st hph, hsr, hnd]
      have hcond : pre.length < rc.search.length ∧
          sget rc.search pre.length ≠ [] := by
        refine ⟨?_, ?_⟩
        · rw [hsplit]
          simp
        · rw [hsplit, sget_append]
          exact he
      simp only [searchCase1]
      rw [if_pos hcond]
      dsimp only
      have hse : sget rc.search pre.length = e := by rw [hsplit, sget_append]
      rw [hse]
      rw [if_neg (show ¬ (dAnchor q ++ e = []) from
        fun hnil => hq (List.append_eq_nil.mp hnil).1)]
      have hlen : pre.length + 1 ≤ 255 := by
        have hl := congrArg List.length hsplit
        simp at hl
        omega
      have h1 : 255 &&& searchPack st (pre.length + 1) D = 1 := by
        rw [searchPack_phase]
        have hph' : st % 256 = 1 := by rw [← land255_eq]; exact hph
        omega
      have h2 : 255 &&& (searchPack st (pre.length + 1) D >>> 8) =
          (pre ++ [e]).length := by
        rw [searchPack_srchi _ _ _ (by omega)]
        simp
      have h3 : 255 &&& (searchPack st (pre.length + 1) D >>> 16) = D :=
        searchPack_ndots _ _ _ (by omega)
      rw [ih (pre ++ [e]) (searchPack st (pre.length + 1) D) f
        (by rw [hsplit]; simp) h1 h2 h3
        (by simp only [List.length_cons] at hfuel; omega)]
      simp only [takeNonempty]
      rw [if_neg he]
      simp

theorem c8_fallthroughAux (q : List Nat) (rc : Resconf8)
    (hq : dAnchor q ≠ []) (hs : rc.search.length ≤ 255) (D : Nat)
    (hD : D ≤ 255) (hc : ¬ rc.ndots ≤ D) (f : Nat)
    (hf : rc.search.length + 1 ≤ f) :
    (if (searchCase1 q rc 1 0 D).1 = [] then []
     else (searchCase1 q rc 1 0 D).1 ::
       searchCandsGo f q rc (searchCase1 q rc 1 0 D).2) =
      (takeNonempty rc.search).map (fun s => dAnchor q ++ s) ++
        [dAnchor q] := by
  cases hsc : rc.search with
  | nil =>
    simp only [searchCase1]
    have hcond : ¬ (0 < rc.search.length ∧ sget rc.search 0 ≠ []) := by
      rw [hsc]
      simp [sget]
    rw [if_neg hcond]
    simp only [searchCase2]
    rw [if_pos (show D < rc.ndots by omega)]
    dsimp only
    rw [if_neg hq]
    obtain ⟨f', rfl⟩ : ∃ f', f = f' + 1 := ⟨f - 1, by omega⟩
    simp only [searchCandsGo]
    rw [resconfSearch_phase3 q rc _ (by rw [searchPack_phase])]
    simp [takeNonempty]
  | cons e es =>
    by_cases he : e = []
    · subst he
      simp only [searchCase1]
      have hcond : ¬ (0 < rc.search.length ∧ sget rc.search 0 ≠ []) := by
        rw [hsc]
        simp [sget]
      rw [if_neg hcond]
      simp only [searchCase2]
      rw [if_pos (show D < rc.ndots by omega)]
      dsimp only
      rw [if_neg hq]
      obtain ⟨f', rfl⟩ : ∃ f', f = f' + 1 := ⟨f - 1, by omega⟩
      simp only [searchCandsGo]
      rw [resconfSearch_phase3 q rc _ (by rw [searchPack_phase])]
      simp [takeNonempty]
    · simp only [searchCase1]
      have hcond : 0 < rc.search.length ∧ sget rc.search 0 ≠ [] := by
        rw [hsc]
        exact ⟨by simp, by simpa [sget] using he⟩
      rw [if_pos hcond]
      dsimp only
      have hse : sget rc.search 0 = e := by rw [hsc]; simp [sget]
      rw [hse]
      rw [if_neg (show ¬ (dAnchor q ++ e = []) from
        fun hnil => hq (List.append_eq_nil.mp hnil).1)]
      rw [c8_loopAux q rc hq hs D hD es [e] (searchPack 1 (0 + 1) D) f
        (by rw [hsc]; rfl)
        (by rw [searchPack_phase])
        (by rw [searchPack_srchi _ _ _ (by norm_num)]; rfl)
        (searchPack_ndots _ _ _ (by omega))
        (by rw [hsc] at hf; simp only [List.length_cons] at hf; omega)]
      rw [if_neg hc]
      simp only [takeNonempty]
      rw [if_neg he]
      simp

/-- C8 counterexample: with default ndots 1, qname "foo.bar" (one dot)
and search list ["x.y."], the iterator emits ["foo.bar.",
"foo.bar.x.y."] and stops; the claim's sequence additionally ends with
the bare qname, which dns_resconf_search only emits when the dot count
fell short of ndots (case 2 tests ndots < options.ndots). -/
theorem c8_bare_qname_missing_when_ndots_met :
    searchCands c8q c8rc ≠ specSearchCands c8q c8rc := by decide

/-- C8 (amended): the candidates come in the order - anchored qname
first when the qname's dot count meets options.ndots, then
anchor(qname) ++ search[i] for the prefix of nonempty search entries,
and the (anchored) bare qname last only when the dot count fell short
of ndots; after the last candidate the iterator returns length 0. -/
theorem c8_search_candidate_order (q : List Nat) (rc : Resconf8)
    (hq : q ≠ []) (hd : q.countP (fun c => c = 46) ≤ 255)
    (hs : rc.search.length ≤ 255) :
    searchCands q rc =
      (if rc.ndots ≤ q.countP (fun c => c = 46) then [dAnchor q] else []) ++
        (takeNonempty rc.search).map (fun s => dAnchor q ++ s) ++
        (if rc.ndots ≤ q.countP (fun c => c = 46) then []
         else [dAnchor q]) := by
  have hq' : dAnchor q ≠ [] := dAnchor_ne_nil q hq
  show searchCandsGo (rc.search.length + 2 + 1) q rc 0 = _
  rw [searchCandsGo_succ]
  rw [resconfSearch_zero]
  by_cases hc : rc.ndots ≤ q.countP (fun c => c = 46)
  · rw [if_pos hc]
    dsimp only
    rw [if_neg hq']
    rw [c8_loopAux q rc hq' hs (q.countP (fun c => c = 46)) hd rc.search []
      (searchPack 1 0 (q.countP (fun c => c = 46))) (rc.search.length + 2)
      (by simp)
      (by rw [searchPack_phase])
      (searchPack_srchi _ _ _ (by norm_num))
      (searchPack_ndots _ _ _ (by omega))
      (by omega)]
    simp [hc]
  · rw [if_neg hc]
    rw [c8_fallthroughAux q rc hq' hs (q.countP (fun c => c = 46)) hd hc
      (rc.search.length + 2) (by omega)]
    simp [hc]

/-- C8 witness: the amended theorem applied at qname "foo.bar" with the
default ndots 1 and search ["x.y."]. -/
theorem c8_search_candidate_order_witness :
    c8q ≠ [] ∧
      searchCands c8q c8rc =
        (if c8rc.ndots ≤ c8q.countP (fun c => c = 46) then [dAnchor c8q]
         else []) ++
          (takeNonempty c8rc.search).map (fun s => dAnchor c8q ++ s) ++
          (if c8rc.ndots ≤ c8q.countP (fun c => c = 46) then []
           else [dAnchor c8q]) :=
  ⟨by decide, c8_search_candidate_order c8q c8rc (by decide) (by decide)
    (by decide)⟩

end DnsC

namespace DnsC

/-!  dns_hosts_query (dns.c 2664-2729) and its helpers. -/

/-- One struct dns_hosts_entry: address family (AF_INET = 2 and
AF_INET6 = 10, the Linux values; the constants live in system headers),
the address payload in the two union arms, the canonical hostname, the
alias flag, and the precomputed reverse (.arpa) name. -/
structure HostsEntry where
  af : Nat
  addr4 : Nat
  addr6 : List Nat
  host : List Nat
  isAlias : Bool
  arpa : List Nat
  deriving DecidableEq, Repr

/-- The A/AAAA loop of dns_hosts_query: push an answer for every
non-skipped entry of the right family whose host name equals qname
case-insensitively. -/
def hostsLoopAddr : Nat → List HostsEntry → List Nat → RR → Packet →
    Except DErr Packet
  | _, [], _, _, P => .ok P
  | af, ent :: rest, qname, rr, P =>
    if ent.af ≠ af ∨ caseCmp qname ent.host ≠ 0 then
      hostsLoopAddr af rest qname rr P
    else
      match pPush P 2 qname rr.ty rr.cls 0
          (some (if af = 10 then .aaaa ent.addr6 else .a ent.addr4)) with
      | .error e => .error e
      | .ok P2 => hostsLoopAddr af rest qname rr P2

/-- The PTR loop of dns_hosts_query. -/
def hostsLoopPtr : List HostsEntry → List Nat → RR → Packet →
    Except DErr Packet
  | [], _, _, P => .ok P
  | ent :: rest, qname, rr, P =>
    if ent.isAlias = true ∨ caseCmp qname ent.arpa ≠ 0 then
      hostsLoopPtr rest qname rr P
    else
      match pPush P 2 qname rr.ty rr.cls 0 (some (.ptr ent.host)) with
      | .error e => .error e
      | .ok P2 => hostsLoopPtr rest qname rr P2

/-- dns_hosts_query: parse the question at offset 12, expand its name,
bound-check it, echo it into a fresh 512-byte packet, append matching
hosts entries for PTR/AAAA/A questions (no answers for any other type),
and return a tightly sized copy. -/
def dnsHostsQuery (hosts : List HostsEntry) (Q : Packet) :
    Except DErr Packet :=
  match rrParse 12 Q with
  | .error e => .error e
  | .ok rr =>
    match dExpand rr.dnP Q with
    | .illegal => .error .illegal
    | .out => .error .nonterm
    | .ok qname =>
      if qname.length ≥ 256 then .error .einval
      else
        match pPush (pNew 512) 1 qname rr.ty rr.cls 0 none with
        | .error e => .error e
        | .ok P =>
          match (if rr.ty = 12 then hostsLoopPtr hosts qname rr P
                 else if rr.ty = 28 then hostsLoopAddr 10 hosts qname rr P
                 else if rr.ty = 1 then hostsLoopAddr 2 hosts qname rr P
                 else .ok P) with
          | .error e => .error e
          | .ok P2 => .ok (pCopy (pInit (pSizeof P2)) P2)

/-- A textual name as a dot-terminated sequence of labels. -/
def labelsJoin : List (List Nat) → List Nat
  | [] => []
  | l :: ls => l ++ 46 :: labelsJoin ls

/-- The uncompressed wire encoding of those labels, without the trailing
zero octet. -/
def wireBody : List (List Nat) → List Nat
  | [] => []
  | l :: ls => l.length :: (l ++ wireBody ls)

/-- A concrete query packet for the witness: question "x." TXT IN. -/
def c10Q : Packet :=
  { size := 19, pend := 19,
    data := [0, 0, 0, 0, 0, 1, 0, 0, 0, 0, 0, 0, 1, 120, 0, 0, 16, 0, 1],
    dict := [] }

theorem wireBody_length (ls : List (List Nat)) :
    (wireBody ls).length = (labelsJoin ls).length := by
  induction ls with
  | nil => rfl
  | cons l ls ih =>
    simp [wireBody, labelsJoin, ih]
    omega

theorem length_le_wireBody (ls : List (List Nat)) :
    ls.length ≤ (wireBody ls).length := by
  induction ls with
  | nil => simp
  | cons l ls ih => simp [wireBody]; omega

theorem bget_take_lt (l : List Nat) (n i : Nat) (h : i < n) :
    bget (l.take n) i = bget l i := by
  unfold bget
  rw [List.getD_eq_getElem?_getD, List.getD_eq_getElem?_getD,
    List.getElem?_take, if_pos h]

theorem bget_drop_add (l : List Nat) (i k : Nat) :
    bget (l.drop i) k = bget l (i + k) := by
  unfold bget
  rw [List.getD_eq_getElem?_getD, List.getD_eq_getElem?_getD,
    List.getElem?_drop]

theorem bget_set_self (l : List Nat) (i v : Nat) (h : i < l.length) :
    bget (l.set i v) i = v := by
  unfold bget
  rw [List.getD_eq_getElem?_getD, List.getElem?_set_self h]
  rfl

theorem bget_set_ne (l : List Nat) (i j v : Nat) (h : i ≠ j) :
    bget (l.set i v) j = bget l j := by
  unfold bget
  rw [List.getD_eq_getElem?_getD, List.getD_eq_getElem?_getD,
    List.getElem?_set_ne h]

theorem bget_replicate (n i : Nat) : bget (List.replicate n 0) i = 0 := by
  unfold bget
  rw [List.getD_eq_getElem?_getD, List.getElem?_replicate]
  split <;> rfl

theorem lset_in (l : List Nat) (i v : Nat) (h : i < l.length) :
    lset l i v = l.set i v := by
  unfold lset
  rw [if_pos h]

theorem bget_lset_ne (l : List Nat) (i j v : Nat) (h : i ≠ j) :
    bget (lset l i v) j = bget l j := by
  by_cases hi : i < l.length
  · rw [lset_in l i v hi, bget_set_ne l i j v h]
  · unfold bget lset
    rw [if_neg hi]
    rw [List.getD_eq_getElem?_getD, List.getD_eq_getElem?_getD]
    have hlen : (l ++ List.replicate (i - l.length) 0).length = i := by
      simp only [List.length_append, List.length_replicate]
      omega
    by_cases hj : j < l.length
    · rw [List.getElem?_append, if_pos (by omega), List.getElem?_append,
        if_pos hj]
    · by_cases hji : j < i
      · rw [List.getElem?_append, if_pos (by omega),
          List.getElem?_append, if_neg hj, List.getElem?_replicate,
          if_pos (by omega), List.getElem?_eq_none (by omega)]
        rfl
      · rw [List.getElem?_append, if_neg (by omega), hlen]
        rw [List.getElem?_eq_none (show ([v] : List Nat).length ≤ j - i from by simp; omega)]
        rw [List.getElem?_eq_none (show l.length ≤ j from by omega)]

theorem bget_writeRun_lt : ∀ (vs l : List Nat) (i j : Nat), j < i →
    bget (writeRun l i vs) j = bget l j := by
  intro vs
  induction vs with
  | nil => intro l i j _; rfl
  | cons v vs ih =>
    intro l i j h
    simp only [writeRun]
    rw [ih _ _ _ (by omega), bget_lset_ne _ _ _ _ (by omega)]

theorem drop_append_len (A B : List Nat) (n : Nat) (h : A.length = n) :
    (A ++ B).drop n = B := by
  subst h
  exact List.drop_left A B

theorem take_append_len (A B : List Nat) (n : Nat) (h : A.length = n) :
    (A ++ B).take n = A := by
  subst h
  exact List.take_left A B

theorem take_set_of_le (l : List Nat) (n m v : Nat) (h : n ≤ m) :
    (l.set m v).take n = l.take n := by
  apply List.ext_getElem?
  intro k
  rw [List.getElem?_take, List.getElem?_take]
  split
  · exact List.getElem?_set_ne (by omega)
  · rfl

theorem drop_set_lt (l : List Nat) (n m v : Nat) (h : m < n) :
    (l.set m v).drop n = l.drop n := by
  rw [List.drop_set, if_pos h]

theorem lset_at_length (l : List Nat) (v : Nat) :
    lset l l.length v = l ++ [v] := by
  unfold lset
  rw [if_neg (by omega)]
  simp

theorem lset_at_length_succ (l : List Nat) (v : Nat) :
    lset l (l.length + 1) v = l ++ [0, v] := by
  unfold lset
  rw [if_neg (by omega)]
  rw [show l.length + 1 - l.length = 1 from by omega]
  simp

theorem lset_patch (W D : List Nat) (v : Nat) :
    lset (W ++ 0 :: D) W.length v = W ++ v :: D := by
  unfold lset
  rw [if_pos (by simp)]
  rw [List.set_append, if_neg (by omega)]
  simp

theorem writeRun_structural : ∀ (vs l : List Nat) (i : Nat),
    i + vs.length ≤ l.length →
    writeRun l i vs = l.take i ++ vs ++ l.drop (i + vs.length) := by
  intro vs
  induction vs with
  | nil =>
    intro l i h
    simp [writeRun, List.take_append_drop]
  | cons v vs ih =>
    intro l i h
    have hlt : i < l.length := by
      simp only [List.length_cons] at h
      omega
    simp only [writeRun]
    rw [lset_in l i v hlt]
    rw [ih (l.set i v) (i + 1)
      (by simp only [List.length_set, List.length_cons] at h ⊢; omega)]
    have hT : (l.take i).length = i := by
      simp only [List.length_take]
      omega
    have h1 : (l.set i v).take (i + 1) = l.take i ++ [v] := by
      rw [List.set_eq_take_cons_drop v hlt]
      rw [show i + 1 = (l.take i).length + 1 from by rw [hT]]
      rw [List.take_append]
      simp
    have h2 : (l.set i v).drop (i + 1 + vs.length) =
        l.drop (i + (vs.length + 1)) := by
      rw [List.set_eq_take_cons_drop v hlt]
      rw [show i + 1 + vs.length = (l.take i).length + (1 + vs.length)
        from by rw [hT]; omega]
      rw [List.drop_append]
      rw [show 1 + vs.length = vs.length + 1 from by omega]
      rw [List.drop_succ_cons, List.drop_drop]
      congr 1
      omega
    rw [h1, h2]
    simp [List.append_assoc]

theorem writeRun_length (vs l : List Nat) (i : Nat)
    (h : i + vs.length ≤ l.length) :
    (writeRun l i vs).length = l.length := by
  rw [writeRun_structural vs l i h]
  simp only [List.length_append, List.length_take, List.length_drop]
  omega

theorem compBuildGo_congr (rest : List Nat) (a a' b b' : Nat)
    (L L' : List Nat) (ha : a = a') (hb : b = b') (hL : L = L') :
    compBuildGo rest a b 0 L = compBuildGo rest a' b' 0 L' := by
  rw [ha, hb, hL]

theorem compBuild_label_go : ∀ (cs done W rest : List Nat),
    done ≠ [] → (∀ c ∈ cs, c ≠ 46) →
    compBuildGo (cs ++ 46 :: rest) W.length (W.length + 1 + done.length)
        done.length (W ++ 0 :: done)
      = compBuildGo rest (W.length + 1 + done.length + cs.length)
          (W.length + 1 + done.length + cs.length + 1) 0
          (W ++ ((done.length + cs.length) % 64) :: (done ++ cs)) := by
  intro cs
  induction cs with
  | nil =>
    intro done W rest hd hc
    simp only [List.nil_append, compBuildGo]
    rw [if_pos trivial, lset_patch]
    simp
  | cons c cs ih =>
    intro done W rest hd hc
    have hc46 : ¬ c = 46 := hc c (by simp)
    simp only [List.cons_append, compBuildGo]
    rw [if_neg hc46]
    have hset : lset (W ++ 0 :: done) (W.length + 1 + done.length) c
        = W ++ 0 :: (done ++ [c]) := by
      rw [show W.length + 1 + done.length = (W ++ 0 :: done).length from by
        rw [List.length_append, List.length_cons]; omega]
      rw [lset_at_length]
      simp
    rw [hset]
    have ihh := ih (done ++ [c]) W rest (by simp)
      (fun x hx => hc x (by simp [hx]))
    simp only [List.length_append, List.length_cons, List.length_nil,
      Nat.zero_add] at ihh
    simp only [List.append_eq]
    rw [show W.length + 1 + done.length + 1
      = W.length + 1 + (done.length + 1) from by omega]
    rw [ihh]
    apply compBuildGo_congr
    · simp only [List.length_cons]
      omega
    · simp only [List.length_cons]
      omega
    · refine congrArg (fun t => W ++ t) ?_
      congr 1
      all_goals first
      | (simp only [List.length_cons]; omega)
      | simp

theorem compBuild_one_label (l W rest : List Nat) (hl : l ≠ [])
    (hlc : ∀ c ∈ l, c ≠ 46) :
    compBuildGo (l ++ 46 :: rest) W.length (W.length + 1) 0 W
      = compBuildGo rest (W.length + 1 + l.length)
          (W.length + 1 + l.length + 1) 0
          (W ++ (l.length % 64) :: l) := by
  obtain ⟨c, cs, rfl⟩ : ∃ c cs, l = c :: cs := by
    cases l with
    | nil => exact absurd rfl hl
    | cons a b => exact ⟨a, b, rfl⟩
  have hc46 : ¬ c = 46 := hlc c (by simp)
  simp only [List.cons_append, compBuildGo]
  rw [if_neg hc46, lset_at_length_succ]
  have ihh := compBuild_label_go cs [c] W rest (by simp)
    (fun x hx => hlc x (by simp [hx]))
  simp only [List.length_cons, List.length_nil, Nat.zero_add] at ihh
  simp only [Nat.zero_add, List.append_eq]
  rw [ihh]
  apply compBuildGo_congr
  · simp only [List.length_cons]
    omega
  · simp only [List.length_cons]
    omega
  · refine congrArg (fun t => W ++ t) ?_
    congr 1
    all_goals first
    | (simp only [List.length_cons]; omega)
    | simp

theorem compBuild_labels : ∀ (ls : List (List Nat)) (W : List Nat),
    (∀ l ∈ ls, l ≠ [] ∧ l.length ≤ 63 ∧ ∀ c ∈ l, c ≠ 46) →
    (ls = [] → 1 < W.length) →
    compBuildGo (labelsJoin ls) W.length (W.length + 1) 0 W
      = ((W ++ wireBody ls) ++ [0], (W ++ wireBody ls).length + 1) := by
  intro ls
  induction ls with
  | nil =>
    intro W _ hW
    simp only [labelsJoin, compBuildGo]
    rw [if_neg (by omega : ¬ (0 : Nat) > 0)]
    dsimp only
    rw [if_pos (hW rfl)]
    rw [show (W.length : Nat) = W.length from rfl]
    rw [lset_at_length]
    simp [wireBody]
  | cons l ls ih =>
    intro W hcl _
    obtain ⟨hl, hlen, hlc⟩ := hcl l (by simp)
    simp only [labelsJoin]
    rw [compBuild_one_label l W (labelsJoin ls) hl hlc]
    rw [Nat.mod_eq_of_lt (show l.length < 64 from by omega)]
    have hW' : W.length + 1 + l.length = (W ++ l.length :: l).length := by
      rw [List.length_append, List.length_cons]
      omega
    rw [hW']
    rw [ih (W ++ l.length :: l) (fun x hx => hcl x (by simp [hx]))
      (fun _ => by
        have hlp : 0 < l.length := List.length_pos.mpr hl
        simp only [List.length_append, List.length_cons]
        omega)]
    simp [wireBody, List.append_assoc]

theorem compBuild_clean (ls : List (List Nat)) (hne : ls ≠ [])
    (hcl : ∀ l ∈ ls, l ≠ [] ∧ l.length ≤ 63 ∧ ∀ c ∈ l, c ≠ 46) :
    compBuild (labelsJoin ls)
      = (wireBody ls ++ [0], (wireBody ls).length + 1) := by
  have h := compBuild_labels ls [] hcl (fun h => absurd h hne)
  simpa [compBuild] using h


theorem bget_of_drop (l : List Nat) (i x : Nat) (xs : List Nat)
    (h : l.drop i = x :: xs) : bget l i = x := by
  have h0 := List.getElem?_drop l i 0
  rw [h] at h0
  simp only [List.getElem?_cons_zero, Nat.add_zero] at h0
  unfold bget
  rw [List.getD_eq_getElem?_getD, ← h0]
  rfl

theorem lExpandGo_zero (data : List Nat) (pend hops src : Nat)
    (hb : bget data src = 0) (hlt : src < pend) :
    lExpandGo data pend hops src = (0, [], src + 1) := by
  rw [lExpandGo.eq_1]
  rw [if_neg (show ¬ src ≥ pend from by omega)]
  simp only [hb]
  norm_num

theorem lExpandGo_label (data : List Nat) (pend hops src len : Nat)
    (hb : bget data src = len) (h64 : len ≤ 63) (h0 : 0 < len)
    (hfit : src + 1 + len ≤ pend) :
    lExpandGo data pend hops src
      = (len, (data.drop (src + 1)).take len, src + 1 + len) := by
  rw [lExpandGo.eq_1]
  rw [if_neg (show ¬ src ≥ pend from by omega)]
  simp only [hb]
  rw [if_pos (show len / 64 = 0 from Nat.div_eq_of_lt (by omega))]
  rw [Nat.mod_eq_of_lt (show len < 64 from by omega)]
  rw [if_neg (show ¬ pend - (src + 1) < len from by omega)]

theorem dictScanGo_none (P : Packet) (dn : Nat) (h : P.dict = []) :
    ∀ fuel lp, dictScanGo P dn fuel lp = none := by
  intro fuel
  induction fuel with
  | zero => intro lp; rfl
  | succ f ih =>
    intro lp
    simp only [dictScanGo]
    rw [h]
    by_cases h1 : lp ≥ P.pend
    · rw [if_pos h1]
    · rw [if_neg h1]
      split
      · exact ih _
      · exact ih _

theorem compAWalkGo_clean (data : List Nat) (pend : Nat) (wire : List Nat)
    (plen : Nat) :
    ∀ (ls : List (List Nat)) (ap : Nat) (tail : List Nat) (fuel : Nat),
      (∀ l ∈ ls, l ≠ [] ∧ l.length ≤ 63 ∧ ∀ c ∈ l, c ≠ 46) →
      wire.drop ap = wireBody ls ++ 0 :: tail →
      ap + (wireBody ls).length + 1 ≤ wire.length →
      ls.length + 1 ≤ fuel →
      compAWalkGo [] data pend wire plen fuel ap = (wire, plen) := by
  intro ls
  induction ls with
  | nil =>
    intro ap tail fuel _ hdrop hle hfuel
    simp only [wireBody, List.nil_append] at hdrop
    simp only [wireBody, List.length_nil, Nat.add_zero] at hle
    obtain ⟨f, rfl⟩ : ∃ f, fuel = f + 1 := ⟨fuel - 1, by omega⟩
    simp only [compAWalkGo, lExpand]
    rw [lExpandGo_zero wire wire.length 127 ap
      (bget_of_drop wire ap 0 tail hdrop) (by omega)]
    simp
  | cons l ls ih =>
    intro ap tail fuel hcl hdrop hle hfuel
    obtain ⟨hl, h63, _⟩ := hcl l (by simp)
    have hlp : 0 < l.length := List.length_pos.mpr hl
    obtain ⟨f, rfl⟩ : ∃ f, fuel = f + 1 := ⟨fuel - 1, by omega⟩
    simp only [wireBody, List.cons_append, List.append_assoc] at hdrop
    simp only [wireBody, List.length_cons, List.length_append] at hle
    have hd1 : wire.drop (ap + 1) = l ++ (wireBody ls ++ 0 :: tail) := by
      have h2 := congrArg (List.drop 1) hdrop
      rw [List.drop_drop] at h2
      simpa using h2
    have hd2 : wire.drop (ap + 1 + l.length) = wireBody ls ++ 0 :: tail := by
      have h2 := congrArg (List.drop l.length) hd1
      rw [List.drop_drop] at h2
      rw [drop_append_len l _ l.length rfl] at h2
      exact h2
    simp only [List.length_cons] at hfuel
    simp only [compAWalkGo, lExpand]
    rw [lExpandGo_label wire wire.length 127 ap l.length
      (bget_of_drop wire ap l.length _ hdrop) h63 hlp (by omega)]
    rw [if_neg (show ¬ l.length = 0 from by omega)]
    simp only [compDictGo]
    exact ih (ap + 1 + l.length) tail f
      (fun x hx => hcl x (by simp [hx])) hd2 (by omega) (by omega)

theorem dSkipGo_clean (data : List Nat) (pend : Nat) :
    ∀ (ls : List (List Nat)) (src : Nat) (tail : List Nat) (fuel : Nat),
      (∀ l ∈ ls, l ≠ [] ∧ l.length ≤ 63 ∧ ∀ c ∈ l, c ≠ 46) →
      data.drop src = wireBody ls ++ 0 :: tail →
      src + (wireBody ls).length + 1 ≤ pend →
      ls.length + 1 ≤ fuel →
      dSkipGo data pend fuel src = src + (wireBody ls).length + 1 := by
  intro ls
  induction ls with
  | nil =>
    intro src tail fuel _ hdrop hle hfuel
    simp only [wireBody, List.nil_append] at hdrop
    simp only [wireBody, List.length_nil, Nat.add_zero] at hle ⊢
    obtain ⟨f, rfl⟩ : ∃ f, fuel = f + 1 := ⟨fuel - 1, by omega⟩
    simp only [dSkipGo]
    rw [if_neg (show ¬ src ≥ pend from by omega)]
    rw [bget_of_drop data src 0 tail hdrop]
    norm_num
  | cons l ls ih =>
    intro src tail fuel hcl hdrop hle hfuel
    obtain ⟨hl, h63, _⟩ := hcl l (by simp)
    have hlp : 0 < l.length := List.length_pos.mpr hl
    obtain ⟨f, rfl⟩ : ∃ f, fuel = f + 1 := ⟨fuel - 1, by omega⟩
    simp only [List.length_cons] at hfuel
    simp only [wireBody, List.cons_append, List.append_assoc] at hdrop
    simp only [wireBody, List.length_cons, List.length_append] at hle ⊢
    have hd1 : data.drop (src + 1) = l ++ (wireBody ls ++ 0 :: tail) := by
      have h2 := congrArg (List.drop 1) hdrop
      rw [List.drop_drop] at h2
      simpa using h2
    have hd2 : data.drop (src + 1 + l.length) = wireBody ls ++ 0 :: tail := by
      have h2 := congrArg (List.drop l.length) hd1
      rw [List.drop_drop] at h2
      rw [drop_append_len l _ l.length rfl] at h2
      exact h2
    simp only [dSkipGo]
    rw [if_neg (show ¬ src ≥ pend from by omega)]
    rw [bget_of_drop data src l.length _ hdrop]
    rw [if_pos (show l.length / 64 = 0 from Nat.div_eq_of_lt (by omega))]
    rw [Nat.mod_eq_of_lt (show l.length < 64 from by omega)]
    rw [if_neg (show ¬ l.length = 0 from by omega)]
    rw [if_pos (show pend - (src + 1) > l.length from by omega)]
    rw [ih (src + 1 + l.length) tail f
      (fun x hx => hcl x (by simp [hx])) hd2 (by omega) (by omega)]
    omega

theorem dExpandGo_clean (data : List Nat) (pend : Nat) :
    ∀ (ls : List (List Nat)) (src nptrs : Nat) (acc tail : List Nat)
      (fuel : Nat),
      (∀ l ∈ ls, l ≠ [] ∧ l.length ≤ 63 ∧ ∀ c ∈ l, c ≠ 46) →
      (acc = [] → ls ≠ []) →
      data.drop src = wireBody ls ++ 0 :: tail →
      src + (wireBody ls).length + 1 ≤ pend →
      ls.length + 1 ≤ fuel →
      dExpandGo data pend fuel src nptrs acc = .ok (acc ++ labelsJoin ls) := by
  intro ls
  induction ls with
  | nil =>
    intro src nptrs acc tail fuel _ hacc hdrop hle hfuel
    simp only [wireBody, List.nil_append] at hdrop
    simp only [wireBody, List.length_nil, Nat.add_zero] at hle
    obtain ⟨f, rfl⟩ : ∃ f, fuel = f + 1 := ⟨fuel - 1, by omega⟩
    simp only [dExpandGo]
    rw [if_neg (show ¬ src ≥ pend from by omega)]
    rw [bget_of_drop data src 0 tail hdrop]
    norm_num
    have hacc' : acc ≠ [] := fun h => (hacc h) rfl
    rw [if_neg hacc']
    simp [labelsJoin]
  | cons l ls ih =>
    intro src nptrs acc tail fuel hcl hacc hdrop hle hfuel
    obtain ⟨hl, h63, _⟩ := hcl l (by simp)
    have hlp : 0 < l.length := List.length_pos.mpr hl
    obtain ⟨f, rfl⟩ : ∃ f, fuel = f + 1 := ⟨fuel - 1, by omega⟩
    simp only [List.length_cons] at hfuel
    simp only [wireBody, List.cons_append, List.append_assoc] at hdrop
    simp only [wireBody, List.length_cons, List.length_append] at hle
    have hd1 : data.drop (src + 1) = l ++ (wireBody ls ++ 0 :: tail) := by
      have h2 := congrArg (List.drop 1) hdrop
      rw [List.drop_drop] at h2
      simpa using h2
    have hd2 : data.drop (src + 1 + l.length) = wireBody ls ++ 0 :: tail := by
      have h2 := congrArg (List.drop l.length) hd1
      rw [List.drop_drop] at h2
      rw [drop_append_len l _ l.length rfl] at h2
      exact h2
    simp only [dExpandGo]
    rw [if_neg (show ¬ src ≥ pend from by omega)]
    rw [bget_of_drop data src l.length _ hdrop]
    rw [if_pos (show l.length / 64 = 0 from Nat.div_eq_of_lt (by omega))]
    rw [Nat.mod_eq_of_lt (show l.length < 64 from by omega)]
    rw [if_neg (show ¬ l.length = 0 from by omega)]
    rw [if_neg (show ¬ pend - (src + 1) < l.length from by omega)]
    rw [hd1, take_append_len l _ l.length rfl]
    rw [ih (src + 1 + l.length) 0 (acc ++ l ++ [46]) tail f
      (fun x hx => hcl x (by simp [hx])) (fun h => by simp at h) hd2
      (by omega) (by omega)]
    simp [labelsJoin, List.append_assoc]


/-- The data buffer after dns_d_push writes the encoded question name at
offset 12 of the fresh packet. -/
def c10D1 (ls : List (List Nat)) : List Nat :=
  writeRun (List.replicate 512 0) 12 (wireBody ls ++ [0])

/-- The packet dns_d_push returns inside dns_p_push for the question
name. -/
def c10P1 (ls : List (List Nat)) : Packet :=
  { size := 512, pend := 12 + ((wireBody ls).length + 1),
    data := c10D1 ls, dict := [12] }

theorem c10_dPush (ls : List (List Nat)) (hne : ls ≠ [])
    (hcl : ∀ l ∈ ls, l ≠ [] ∧ l.length ≤ 63 ∧ ∀ c ∈ l, c ≠ 46)
    (hlen : (labelsJoin ls).length < 256) :
    dPush (pNew 512) (labelsJoin ls) = .ok (c10P1 ls) := by
  have hcomp := compBuild_clean ls hne hcl
  have hwb : (wireBody ls).length < 256 := by
    rw [wireBody_length]
    exact hlen
  have hls := length_le_wireBody ls
  have hP0 : pNew 512 =
      { size := 512, pend := 12, data := List.replicate 512 0,
        dict := [] } := by rfl
  have htk : (wireBody ls ++ [0]).take ((wireBody ls).length + 1)
      = wireBody ls ++ [0] := by
    rw [show (wireBody ls).length + 1 = (wireBody ls ++ [0]).length from by
      simp]
    exact List.take_length _
  have hawalk : compAWalkGo [] (List.replicate 512 0) 12 (wireBody ls ++ [0])
      ((wireBody ls).length + 1) ((wireBody ls ++ [0]).length + 1) 0
      = (wireBody ls ++ [0], (wireBody ls).length + 1) :=
    compAWalkGo_clean (List.replicate 512 0) 12 (wireBody ls ++ [0])
      ((wireBody ls).length + 1) ls 0 [] ((wireBody ls ++ [0]).length + 1)
      hcl (by simp) (by simp) (by simp; omega)
  rw [hP0]
  simp only [dPush, dComp]
  rw [hcomp]
  dsimp only
  rw [if_pos (show (wireBody ls).length + 1 < 512 - 12 from by omega)]
  rw [hawalk]
  rw [if_neg (show ¬ (wireBody ls).length + 1 = 0 from by omega)]
  rw [if_neg (show ¬ (wireBody ls).length + 1 > 512 - 12 from by omega)]
  rw [htk]
  simp only [pDictadd]
  rw [dictScanGo_none _ 12 rfl]
  simp only [c10P1, c10D1]
  norm_num


/-- The data buffer after the question echo: encoded name, then the
16-bit type and class fields. -/
def c10D2 (ls : List (List Nat)) (ty cls : Nat) : List Nat :=
  lset (lset (lset (lset (c10D1 ls)
    (12 + ((wireBody ls).length + 1)) (ty / 256 % 256))
    (12 + ((wireBody ls).length + 1) + 1) (ty % 256))
    (12 + ((wireBody ls).length + 1) + 1 + 1) (cls / 256 % 256))
    (12 + ((wireBody ls).length + 1) + 1 + 1 + 1) (cls % 256)

/-- The packet dns_p_push returns for the echoed question (QDCOUNT bumped
to 1 at header bytes 4-5). -/
def c10PF (ls : List (List Nat)) (ty cls : Nat) : Packet :=
  { size := 512, pend := 12 + ((wireBody ls).length + 1) + 1 + 1 + 1 + 1,
    data := lset (lset (c10D2 ls ty cls) 4 0) 5 1, dict := [12] }

set_option maxHeartbeats 2000000 in
theorem c10_pPush (ls : List (List Nat)) (ty cls : Nat) (hne : ls ≠ [])
    (hcl : ∀ l ∈ ls, l ≠ [] ∧ l.length ≤ 63 ∧ ∀ c ∈ l, c ≠ 46)
    (hlen : (labelsJoin ls).length < 256) :
    pPush (pNew 512) 1 (labelsJoin ls) ty cls 0 none
      = .ok (c10PF ls ty cls) := by
  have hwb : (wireBody ls).length < 256 := by
    rw [wireBody_length]
    exact hlen
  have hb4 : bget (c10D2 ls ty cls) 4 = 0 := by
    simp only [c10D2, c10D1]
    rw [bget_lset_ne _ _ _ _ (by omega), bget_lset_ne _ _ _ _ (by omega),
      bget_lset_ne _ _ _ _ (by omega), bget_lset_ne _ _ _ _ (by omega),
      bget_writeRun_lt _ _ _ _ (by omega), bget_replicate]
  have hb5 : bget (c10D2 ls ty cls) 5 = 0 := by
    simp only [c10D2, c10D1]
    rw [bget_lset_ne _ _ _ _ (by omega), bget_lset_ne _ _ _ _ (by omega),
      bget_lset_ne _ _ _ _ (by omega), bget_lset_ne _ _ _ _ (by omega),
      bget_writeRun_lt _ _ _ _ (by omega), bget_replicate]
  have hbump : ∀ (P : Packet), P.data = c10D2 ls ty cls →
      P.pend = 12 + ((wireBody ls).length + 1) + 1 + 1 + 1 + 1 →
      P.size = 512 → P.dict = [12] →
      bumpCount P 4 = c10PF ls ty cls := by
    intro P h1 h2 h3 h4
    cases P
    simp only at h1 h2 h3 h4
    subst h1 h2 h3 h4
    simp only [bumpCount, set16, get16]
    rw [hb4, hb5]
    norm_num [c10PF]
  simp only [pPush]
  rw [c10_dPush ls hne hcl hlen]
  dsimp only
  rw [if_neg (show ¬ (c10P1 ls).size - (c10P1 ls).pend < 4 from by
    simp only [c10P1]; omega)]
  simp only [c10P1]
  rw [show pushBytes
      { size := 512, pend := 12 + ((wireBody ls).length + 1),
        data := c10D1 ls, dict := ([12] : List Nat) }
      [ty / 256, ty, cls / 256, cls]
    = { size := 512,
        pend := 12 + ((wireBody ls).length + 1) + 1 + 1 + 1 + 1,
        data := c10D2 ls ty cls, dict := ([12] : List Nat) } from rfl]
  rw [if_pos trivial]
  rw [hbump _ rfl rfl rfl rfl]


theorem lset_length (l : List Nat) (i v : Nat) :
    (lset l i v).length = max l.length (i + 1) := by
  unfold lset
  split
  · simp
    omega
  · simp
    omega

theorem c10PF_facts (ls : List (List Nat)) (ty cls : Nat)
    (hlen : (labelsJoin ls).length < 256) :
    ((c10PF ls ty cls).data.drop 12).take ((wireBody ls).length + 1)
        = wireBody ls ++ [0] ∧
    bget (c10PF ls ty cls).data (12 + ((wireBody ls).length + 1))
        = ty / 256 % 256 ∧
    bget (c10PF ls ty cls).data (12 + ((wireBody ls).length + 1) + 1)
        = ty % 256 ∧
    bget (c10PF ls ty cls).data (12 + ((wireBody ls).length + 1) + 1 + 1)
        = cls / 256 % 256 ∧
    bget (c10PF ls ty cls).data (12 + ((wireBody ls).length + 1) + 1 + 1 + 1)
        = cls % 256 ∧
    bget (c10PF ls ty cls).data 4 = 0 ∧
    bget (c10PF ls ty cls).data 5 = 1 ∧
    (∀ j, j < 12 → j ≠ 4 → j ≠ 5 → bget (c10PF ls ty cls).data j = 0) := by
  have hwb : (wireBody ls).length < 256 := by
    rw [wireBody_length]
    exact hlen
  have hD1len : (c10D1 ls).length = 512 := by
    simp only [c10D1]
    rw [writeRun_length _ _ _ (by simp; omega)]
    simp
  have hD2len : (c10D2 ls ty cls).length = 512 := by
    simp only [c10D2, lset_length, hD1len]
    omega
  have hdrop12 : (c10D1 ls).drop 12 = (wireBody ls ++ [0]) ++
      (List.replicate 512 0).drop (12 + (wireBody ls ++ [0]).length) := by
    simp only [c10D1]
    rw [writeRun_structural _ _ _ (by simp; omega)]
    rw [List.append_assoc]
    rw [drop_append_len _ _ 12 (by simp)]
  refine ⟨?_, ?_, ?_, ?_, ?_, ?_, ?_, ?_⟩
  · simp only [c10PF]
    rw [lset_in _ 5 _ (by rw [lset_length, hD2len]; omega)]
    rw [lset_in _ 4 _ (by rw [hD2len]; omega)]
    rw [drop_set_lt _ _ _ _ (by omega), drop_set_lt _ _ _ _ (by omega)]
    simp only [c10D2]
    rw [lset_in _ _ _ (by simp only [lset_length, hD1len]; omega)]
    rw [List.drop_set, if_neg (by omega)]
    rw [take_set_of_le _ _ _ _ (by omega)]
    rw [lset_in _ _ _ (by simp only [lset_length, hD1len]; omega)]
    rw [List.drop_set, if_neg (by omega)]
    rw [take_set_of_le _ _ _ _ (by omega)]
    rw [lset_in _ _ _ (by simp only [lset_length, hD1len]; omega)]
    rw [List.drop_set, if_neg (by omega)]
    rw [take_set_of_le _ _ _ _ (by omega)]
    rw [lset_in _ _ _ (by rw [hD1len]; omega)]
    rw [List.drop_set, if_neg (by omega)]
    rw [take_set_of_le _ _ _ _ (by omega)]
    rw [hdrop12]
    rw [take_append_len _ _ _ (by simp)]
  · simp only [c10PF]
    rw [bget_lset_ne _ _ _ _ (by omega), bget_lset_ne _ _ _ _ (by omega)]
    simp only [c10D2]
    rw [bget_lset_ne _ _ _ _ (by omega), bget_lset_ne _ _ _ _ (by omega),
      bget_lset_ne _ _ _ _ (by omega), bget_lset_same]
  · simp only [c10PF]
    rw [bget_lset_ne _ _ _ _ (by omega), bget_lset_ne _ _ _ _ (by omega)]
    simp only [c10D2]
    rw [bget_lset_ne _ _ _ _ (by omega), bget_lset_ne _ _ _ _ (by omega),
      bget_lset_same]
  · simp only [c10PF]
    rw [bget_lset_ne _ _ _ _ (by omega), bget_lset_ne _ _ _ _ (by omega)]
    simp only [c10D2]
    rw [bget_lset_ne _ _ _ _ (by omega), bget_lset_same]
  · simp only [c10PF]
    rw [bget_lset_ne _ _ _ _ (by omega), bget_lset_ne _ _ _ _ (by omega)]
    simp only [c10D2]
    rw [bget_lset_same]
  · simp only [c10PF]
    rw [bget_lset_ne _ _ _ _ (by omega), bget_lset_same]
  · simp only [c10PF]
    rw [bget_lset_same]
  · intro j hj h4 h5
    simp only [c10PF]
    rw [bget_lset_ne _ _ _ _ (by omega), bget_lset_ne _ _ _ _ (by omega)]
    simp only [c10D2, c10D1]
    rw [bget_lset_ne _ _ _ _ (by omega), bget_lset_ne _ _ _ _ (by omega),
      bget_lset_ne _ _ _ _ (by omega), bget_lset_ne _ _ _ _ (by omega),
      bget_writeRun_lt _ _ _ _ (by omega), bget_replicate]


theorem rrParse_question (A : Packet) (ls : List (List Nat))
    (ty cls : Nat) (tl : List Nat)
    (hcl : ∀ l ∈ ls, l ≠ [] ∧ l.length ≤ 63 ∧ ∀ c ∈ l, c ≠ 46)
    (htl : A.data.drop 12 = wireBody ls ++ 0 :: tl)
    (hpend : A.pend = 12 + ((wireBody ls).length + 1) + 1 + 1 + 1 + 1)
    (hb1 : bget A.data (12 + ((wireBody ls).length + 1)) = ty / 256 % 256)
    (hb2 : bget A.data (12 + ((wireBody ls).length + 1) + 1) = ty % 256)
    (hb3 : bget A.data (12 + ((wireBody ls).length + 1) + 1 + 1)
      = cls / 256 % 256)
    (hb4 : bget A.data (12 + ((wireBody ls).length + 1) + 1 + 1 + 1)
      = cls % 256)
    (hty16 : ty < 65536) (hcls16 : cls < 65536) :
    rrParse 12 A = .ok ⟨12, (wireBody ls).length + 1, ty, cls, 0, 0, 0, 1⟩ := by
  have hlsle := length_le_wireBody ls
  simp only [rrParse, dSkip]
  rw [hpend]
  rw [if_neg (show ¬ (12 : Nat)
    ≥ 12 + ((wireBody ls).length + 1) + 1 + 1 + 1 + 1 from by omega)]
  rw [dSkipGo_clean A.data _ ls 12 tl _ hcl htl (by omega) (by omega)]
  rw [if_neg (show ¬ 12 + ((wireBody ls).length + 1) + 1 + 1 + 1 + 1
    - (12 + (wireBody ls).length + 1) < 4 from by omega)]
  rw [show 12 + (wireBody ls).length + 1
    = 12 + ((wireBody ls).length + 1) from by omega]
  rw [show 12 + ((wireBody ls).length + 1) + 2
    = 12 + ((wireBody ls).length + 1) + 1 + 1 from by omega]
  rw [show 12 + ((wireBody ls).length + 1) + 3
    = 12 + ((wireBody ls).length + 1) + 1 + 1 + 1 from by omega]
  rw [hb1, hb2, hb3, hb4]
  rw [if_pos trivial]
  simp only [Except.ok.injEq, RR.mk.injEq, eq_self_iff_true, and_true,
    true_and]
  omega

theorem dExpand_question (A : Packet) (ls : List (List Nat))
    (tl : List Nat)
    (hcl : ∀ l ∈ ls, l ≠ [] ∧ l.length ≤ 63 ∧ ∀ c ∈ l, c ≠ 46)
    (hne : ls ≠ [])
    (htl : A.data.drop 12 = wireBody ls ++ 0 :: tl)
    (hpend : A.pend = 12 + ((wireBody ls).length + 1) + 1 + 1 + 1 + 1) :
    dExpand 12 A = .ok (labelsJoin ls) := by
  have hlsle := length_le_wireBody ls
  simp only [dExpand, expFuel]
  rw [dExpandGo_clean A.data A.pend ls 12 0 [] tl _ hcl (fun _ => hne) htl
    (by rw [hpend]; omega) (by rw [hpend]; omega)]
  simp

/-- The answer packet dns_hosts_query returns: a tightly sized copy of
the echoed-question packet. -/
def c10A (ls : List (List Nat)) (ty cls : Nat) : Packet :=
  { size := 12 + ((wireBody ls).length + 1) + 1 + 1 + 1 + 1,
    pend := 12 + ((wireBody ls).length + 1) + 1 + 1 + 1 + 1,
    data := (c10PF ls ty cls).data.take
      (12 + ((wireBody ls).length + 1) + 1 + 1 + 1 + 1),
    dict := [] }

/-- C10: for a well-formed query whose question type is neither A nor
AAAA nor PTR, dns_hosts_query succeeds regardless of the hosts table,
and the answer echoes the question: QDCOUNT 1, zero answer, authority
and additional records, same type and class, and a question name that
expands back to the original qname. -/
theorem c10_hosts_query_default (hosts : List HostsEntry) (Q : Packet)
    (rr : RR) (qname : List Nat) (ls : List (List Nat))
    (hparse : rrParse 12 Q = .ok rr)
    (hexp : dExpand rr.dnP Q = .ok qname)
    (hqlen : qname.length < 256)
    (htyA : rr.ty ≠ 1) (htyAAAA : rr.ty ≠ 28) (htyPTR : rr.ty ≠ 12)
    (hty16 : rr.ty < 65536) (hcls16 : rr.cls < 65536)
    (hls : qname = labelsJoin ls) (hne : ls ≠ [])
    (hcl : ∀ l ∈ ls, l ≠ [] ∧ l.length ≤ 63 ∧ ∀ c ∈ l, c ≠ 46) :
    ∃ A, dnsHostsQuery hosts Q = .ok A ∧
      dnsHostsQuery hosts Q = dnsHostsQuery [] Q ∧
      hdrQdcount A = 1 ∧ hdrAncount A = 0 ∧ hdrNscount A = 0 ∧
      hdrArcount A = 0 ∧
      rrParse 12 A = .ok ⟨12, qname.length + 1, rr.ty, rr.cls, 0, 0, 0, 1⟩ ∧
      dExpand 12 A = .ok qname := by
  subst hls
  have hwb : (wireBody ls).length < 256 := by
    rw [wireBody_length]
    exact hqlen
  have hLq : (wireBody ls).length = (labelsJoin ls).length :=
    wireBody_length ls
  have hlsle := length_le_wireBody ls
  obtain ⟨hF1, hF2a, hF2b, hF2c, hF2d, hF3a, hF3b, hF4⟩ :=
    c10PF_facts ls rr.ty rr.cls hqlen
  have hrun : ∀ hs : List HostsEntry, dnsHostsQuery hs Q
      = .ok (pCopy (pInit (pSizeof (c10PF ls rr.ty rr.cls)))
          (c10PF ls rr.ty rr.cls)) := by
    intro hs
    simp only [dnsHostsQuery]
    rw [hparse]
    dsimp only
    rw [hexp]
    dsimp only
    rw [if_neg (show ¬ (labelsJoin ls).length ≥ 256 from by omega)]
    rw [c10_pPush ls rr.ty rr.cls hne hcl hqlen]
    dsimp only
    rw [if_neg htyPTR, if_neg htyAAAA, if_neg htyA]
  have hmax : pSizeof (c10PF ls rr.ty rr.cls)
      = 12 + ((wireBody ls).length + 1) + 1 + 1 + 1 + 1 := by
    simp only [pSizeof, pCalcsize, c10PF]
    omega
  have hAeq : pCopy (pInit (pSizeof (c10PF ls rr.ty rr.cls)))
      (c10PF ls rr.ty rr.cls) = c10A ls rr.ty rr.cls := by
    rw [hmax]
    simp only [pCopy, pInit, c10A]
    rw [show (c10PF ls rr.ty rr.cls).pend
      = 12 + ((wireBody ls).length + 1) + 1 + 1 + 1 + 1 from rfl]
    simp
  have hAdata : (c10A ls rr.ty rr.cls).data
      = (c10PF ls rr.ty rr.cls).data.take
        (12 + ((wireBody ls).length + 1) + 1 + 1 + 1 + 1) := by
    simp only [c10A]
  have htake2 : ((c10A ls rr.ty rr.cls).data.drop 12).take
        ((wireBody ls).length + 1) = wireBody ls ++ [0] := by
    rw [hAdata]
    rw [List.drop_take]
    rw [List.take_take]
    rw [show min ((wireBody ls).length + 1)
      (12 + ((wireBody ls).length + 1) + 1 + 1 + 1 + 1 - 12)
      = (wireBody ls).length + 1 from by omega]
    exact hF1
  have htl : (c10A ls rr.ty rr.cls).data.drop 12
      = wireBody ls ++ 0 ::
        ((c10A ls rr.ty rr.cls).data.drop 12).drop
          ((wireBody ls).length + 1) := by
    conv_lhs => rw [← List.take_append_drop ((wireBody ls).length + 1)
      ((c10A ls rr.ty rr.cls).data.drop 12)]
    rw [htake2]
    simp
  refine ⟨_, hrun hosts, (hrun hosts).trans (hrun []).symm, ?_, ?_, ?_, ?_,
    ?_, ?_⟩
  · rw [hAeq]
    simp only [hdrQdcount, get16, hAdata]
    rw [bget_take_lt _ _ _ (by omega), bget_take_lt _ _ _ (by omega)]
    rw [hF3a, hF3b]
  · rw [hAeq]
    simp only [hdrAncount, get16, hAdata]
    rw [bget_take_lt _ _ _ (by omega), bget_take_lt _ _ _ (by omega)]
    rw [hF4 6 (by omega) (by omega) (by omega),
      hF4 7 (by omega) (by omega) (by omega)]
  · rw [hAeq]
    simp only [hdrNscount, get16, hAdata]
    rw [bget_take_lt _ _ _ (by omega), bget_take_lt _ _ _ (by omega)]
    rw [hF4 8 (by omega) (by omega) (by omega),
      hF4 9 (by omega) (by omega) (by omega)]
  · rw [hAeq]
    simp only [hdrArcount, get16, hAdata]
    rw [bget_take_lt _ _ _ (by omega), bget_take_lt _ _ _ (by omega)]
    rw [hF4 10 (by omega) (by omega) (by omega),
      hF4 11 (by omega) (by omega) (by omega)]
  · rw [hAeq]
    rw [rrParse_question (c10A ls rr.ty rr.cls) ls rr.ty rr.cls _ hcl htl
      rfl
      (by rw [hAdata, bget_take_lt _ _ _ (by omega)]; exact hF2a)
      (by rw [hAdata, bget_take_lt _ _ _ (by omega)]; exact hF2b)
      (by rw [hAdata, bget_take_lt _ _ _ (by omega)]; exact hF2c)
      (by rw [hAdata, bget_take_lt _ _ _ (by omega)]; exact hF2d)
      hty16 hcls16]
    simp only [Except.ok.injEq, RR.mk.injEq, eq_self_iff_true, and_true,
      true_and]
    omega
  · rw [hAeq]
    exact dExpand_question (c10A ls rr.ty rr.cls) ls _ hcl hne htl rfl


/-- C10 witness: the empty hosts table and a concrete TXT IN question
for "x.". -/
theorem c10_hosts_query_default_witness :
    ∃ A, dnsHostsQuery [] c10Q = .ok A ∧
      dnsHostsQuery [] c10Q = dnsHostsQuery [] c10Q ∧
      hdrQdcount A = 1 ∧ hdrAncount A = 0 ∧ hdrNscount A = 0 ∧
      hdrArcount A = 0 ∧
      rrParse 12 A = .ok ⟨12, 3, 16, 1, 0, 0, 0, 1⟩ ∧
      dExpand 12 A = .ok [120, 46] :=
  c10_hosts_query_default [] c10Q ⟨12, 3, 16, 1, 0, 0, 0, 1⟩ [120, 46]
    [[120]] (by decide) (by decide) (by decide) (by decide) (by decide)
    (by decide) (by decide) (by decide) (by decide) (by decide) (by decide)

end DnsC
